import Mathlib

/-!
# Verification of the `ray` path tracer against its specification

Shallow embedding of the core of the `ray` repository (a Rust Monte-Carlo
path tracer) with the scalar type `f32` modelled as `ℚ` (exact arithmetic;
all the operations the verified claims depend on are field operations and
comparisons).  Functions of the source that call `sqrt`, `sin`, `cos`,
`acos`, `atan2` or `ln` are parametrised by those operations, since the
embedding stays inside `ℚ`; every theorem below either holds for all
interpretations of those parameters or is instantiated at arguments where
the parameter agrees with the real function (for example `sq 1 = 1`,
`sq (25/16) = 5/4`, `sin (π/2) = 1`).

Sources embedded: `src/geom.rs` (Vec3, Axis), `src/aabb.rs`,
`src/material.rs` (Metal), `src/pdf.rs`, `src/object.rs` (HitRecord,
Objects::hit, EmptyObject, Rotate, ConstantMedium), `src/sphere.rs`,
`src/rect.rs`, `src/bvh.rs` (BvhNode::hit), `src/render.rs` (ray_color).
The `Ray` type (origin, direction, time), the `Mat4` affine transforms
(from the external `glam` crate) and the `ScatterRecord`/`Reflection`
material interface are not present under `src/` (only their callers are)
and are modelled from the spec where marked.
-/

/-- `Vec3` of `src/geom.rs`: a triplet of floats, here exact rationals.
Aliased in the source as `Point3` and `Color`. -/
structure Vec3 where
  x : ℚ
  y : ℚ
  z : ℚ
deriving DecidableEq, Repr

namespace Vec3

/-- `Vec3::new`. -/
def mk3 (x y z : ℚ) : Vec3 := ⟨x, y, z⟩

/-- `Vec3` addition (componentwise, `impl Add for Vec3`). -/
def add (v w : Vec3) : Vec3 := ⟨v.x + w.x, v.y + w.y, v.z + w.z⟩

/-- `Vec3` subtraction (componentwise). -/
def sub (v w : Vec3) : Vec3 := ⟨v.x - w.x, v.y - w.y, v.z - w.z⟩

/-- `impl Neg for Vec3`. -/
def neg (v : Vec3) : Vec3 := ⟨-v.x, -v.y, -v.z⟩

/-- `impl Mul<Vec3> for Vec3`: componentwise product (used for colors). -/
def cmul (v w : Vec3) : Vec3 := ⟨v.x * w.x, v.y * w.y, v.z * w.z⟩

/-- `impl Mul<Float> for Vec3`: scalar product. -/
def smul (c : ℚ) (v : Vec3) : Vec3 := ⟨c * v.x, c * v.y, c * v.z⟩

/-- `impl Div<Float> for Vec3`.  The source panics on division by zero; the
claims proved below never take that path (noted where relevant). -/
def divs (v : Vec3) (c : ℚ) : Vec3 := ⟨v.x / c, v.y / c, v.z / c⟩

end Vec3

/-- `dot` of `src/geom.rs`. -/
def dot (v w : Vec3) : ℚ := v.x * w.x + v.y * w.y + v.z * w.z

/-- `Vec3::length2` / `length_squared`. -/
def length2 (v : Vec3) : ℚ := dot v v

/-- `Vec3::normalize` = `self / self.length()`, with `length = sqrt (length2)`
supplied through the parameter `sq` (the embedding of `f32::sqrt`). -/
def Vec3.normalize (sq : ℚ → ℚ) (v : Vec3) : Vec3 := v.divs (sq (length2 v))

/-- `BLACK` of `src/geom.rs`. -/
def BLACK : Vec3 := ⟨0, 0, 0⟩

/-- `f32::MAX` as an exact rational: `2^128 - 2^104`.  The repository's
`INFINITY` constant (`src/geom.rs` line 7) is defined as `f32::MAX`. -/
def f32MAX : ℚ := 340282346638528859811704183484516925440

/-- `f32::MIN = -f32::MAX`. -/
def f32MIN : ℚ := -340282346638528859811704183484516925440

/-- The repository's `INFINITY` constant (`src/geom.rs`): `f32::MAX`. -/
def INFINITY : ℚ := f32MAX

/-- `Axis` of `src/geom.rs`. -/
inductive Axis where
  | X
  | Y
  | Z
deriving DecidableEq, Repr

/-- `Axis::order` of `src/geom.rs`. -/
def Axis.order : Axis → Axis × Axis × Axis
  | .X => (.Y, .Z, .X)
  | .Y => (.X, .Z, .Y)
  | .Z => (.X, .Y, .Z)

/-- `impl Index<Axis> for Vec3`. -/
def Vec3.idx (v : Vec3) : Axis → ℚ
  | .X => v.x
  | .Y => v.y
  | .Z => v.z

/-- `impl IndexMut<Axis> for Vec3`: functional update of one component. -/
def Vec3.setIdx (v : Vec3) : Axis → ℚ → Vec3
  | .X, c => ⟨c, v.y, v.z⟩
  | .Y, c => ⟨v.x, c, v.z⟩
  | .Z, c => ⟨v.x, v.y, c⟩

/-- `Aabb` of `src/aabb.rs`. -/
structure Aabb where
  box_min : Vec3
  box_max : Vec3
deriving DecidableEq, Repr

/-- `Aabb::empty` of `src/aabb.rs`: min at `f32::MAX`, max at `f32::MIN`. -/
def Aabb.empty : Aabb :=
  ⟨⟨f32MAX, f32MAX, f32MAX⟩, ⟨f32MIN, f32MIN, f32MIN⟩⟩

/-- `surrounding_box` of `src/aabb.rs`: componentwise min of the two minima
and max of the two maxima. -/
def surrounding_box (box0 box1 : Aabb) : Aabb :=
  { box_min := ⟨min box0.box_min.x box1.box_min.x,
               min box0.box_min.y box1.box_min.y,
               min box0.box_min.z box1.box_min.z⟩
    box_max := ⟨max box0.box_max.x box1.box_max.x,
               max box0.box_max.y box1.box_max.y,
               max box0.box_max.z box1.box_max.z⟩ }

/-- A box `outer` contains `inner` componentwise: each min of `outer` is ≤
the corresponding min of `inner` and each max of `outer` is ≥ the
corresponding max of `inner` (the containment notion of the claim). -/
def aabbContains (outer inner : Aabb) : Prop :=
  outer.box_min.x ≤ inner.box_min.x ∧ outer.box_min.y ≤ inner.box_min.y ∧
  outer.box_min.z ≤ inner.box_min.z ∧ inner.box_max.x ≤ outer.box_max.x ∧
  inner.box_max.y ≤ outer.box_max.y ∧ inner.box_max.z ≤ outer.box_max.z

/-- All six stored coordinates of a box lie in the `f32` finite range
`[f32::MIN, f32::MAX]`; every finite `f32` value satisfies this. -/
def aabbFinite (b : Aabb) : Prop :=
  (f32MIN ≤ b.box_min.x ∧ b.box_min.x ≤ f32MAX) ∧
  (f32MIN ≤ b.box_min.y ∧ b.box_min.y ≤ f32MAX) ∧
  (f32MIN ≤ b.box_min.z ∧ b.box_min.z ≤ f32MAX) ∧
  (f32MIN ≤ b.box_max.x ∧ b.box_max.x ≤ f32MAX) ∧
  (f32MIN ≤ b.box_max.y ∧ b.box_max.y ≤ f32MAX) ∧
  (f32MIN ≤ b.box_max.z ∧ b.box_max.z ≤ f32MAX)

instance (b : Aabb) : Decidable (aabbFinite b) := by
  unfold aabbFinite; infer_instance

instance (o i : Aabb) : Decidable (aabbContains o i) := by
  unfold aabbContains; infer_instance

/-- C9: `surrounding_box(b, empty) == b` for every box with finite
coordinates, and `surrounding_box(a, b)` contains both operands.  (The
source's `Aabb::empty` uses `f32::MAX`/`f32::MIN`, the largest finite
values — which are also what the repository calls `INFINITY` — so the
identity holds for every box whose coordinates are finite `f32` values.) -/
theorem C9_surrounding_box_empty_and_contains (b a c : Aabb)
    (hb : aabbFinite b) :
    surrounding_box b Aabb.empty = b ∧
    aabbContains (surrounding_box a c) a ∧
    aabbContains (surrounding_box a c) c := by
  obtain ⟨⟨h1, h2⟩, ⟨h3, h4⟩, ⟨h5, h6⟩, ⟨h7, h8⟩, ⟨h9, h10⟩, h11, h12⟩ := hb
  refine ⟨?_, ?_, ?_⟩
  · simp only [surrounding_box, Aabb.empty]
    congr 1
    · congr 1 <;> simp [min_eq_left, h2, h4, h6]
    · congr 1 <;> simp [max_eq_left, h7, h9, h11]
  · exact ⟨min_le_left _ _, min_le_left _ _, min_le_left _ _,
      le_max_left _ _, le_max_left _ _, le_max_left _ _⟩
  · exact ⟨min_le_right _ _, min_le_right _ _, min_le_right _ _,
      le_max_right _ _, le_max_right _ _, le_max_right _ _⟩

/-- Witness for C9 at a concrete finite box. -/
theorem C9_surrounding_box_empty_and_contains_witness :
    surrounding_box ⟨⟨-1, 0, 2⟩, ⟨3, 4, 5⟩⟩ Aabb.empty = ⟨⟨-1, 0, 2⟩, ⟨3, 4, 5⟩⟩ ∧
    aabbContains (surrounding_box ⟨⟨0, 0, 0⟩, ⟨1, 1, 1⟩⟩ ⟨⟨-2, 0, 0⟩, ⟨0, 3, 1⟩⟩)
      ⟨⟨0, 0, 0⟩, ⟨1, 1, 1⟩⟩ ∧
    aabbContains (surrounding_box ⟨⟨0, 0, 0⟩, ⟨1, 1, 1⟩⟩ ⟨⟨-2, 0, 0⟩, ⟨0, 3, 1⟩⟩)
      ⟨⟨-2, 0, 0⟩, ⟨0, 3, 1⟩⟩ :=
  C9_surrounding_box_empty_and_contains ⟨⟨-1, 0, 2⟩, ⟨3, 4, 5⟩⟩
    ⟨⟨0, 0, 0⟩, ⟨1, 1, 1⟩⟩ ⟨⟨-2, 0, 0⟩, ⟨0, 3, 1⟩⟩ (by decide)

/-- `Metal` of `src/material.rs`. -/
structure Metal where
  albedo : Vec3
  fuzz : ℚ
deriving DecidableEq, Repr

/-- `Metal::new` of `src/material.rs` (lines 93–97): stores `albedo` and
`fuzz` exactly as given — there is no clamping in the constructor. -/
def Metal.new (albedo : Vec3) (fuzz : ℚ) : Metal :=
  { albedo := albedo, fuzz := fuzz }

/-- C8 counterexample: `Metal::new` called with `fuzz = 2` stores a fuzz
value outside `[0, 1]`, so construction does not clamp. -/
theorem C8_metal_fuzz_counterexample :
    (Metal.new ⟨1, 1, 1⟩ 2).fuzz = 2 ∧ ¬ ((Metal.new ⟨1, 1, 1⟩ 2).fuzz ≤ 1) := by
  decide

/-- C8 amended: `Metal::new` stores the fuzz argument unchanged (no
clamping to `[0,1]` happens at construction). -/
theorem C8_metal_new_stores_fuzz_unchanged (albedo : Vec3) (fuzz : ℚ) :
    (Metal.new albedo fuzz).fuzz = fuzz := rfl

/-- `CosinePdf::value` of `src/pdf.rs` (lines 29–36).  The stored `Onb` is
read only through its `w` field here, passed as `w`; `sq` embeds the
`sqrt` inside `normalize` and `pi` the `PI` constant.  The source returns
`1.0` — not `0.0` — when the cosine is non-positive. -/
def cosine_pdf_value (sq : ℚ → ℚ) (pi : ℚ) (w direction : Vec3) : ℚ :=
  let cosine := dot (direction.normalize sq) w
  if cosine ≤ 0 then 1 else cosine / pi

/-- A square-root table agreeing with the real `sqrt` on the arguments the
concrete counterexamples below evaluate it at. -/
def sqTable (q : ℚ) : ℚ :=
  if q = 9 then 3 else if q = 1 then 1 else if q = 25/16 then 5/4 else
  if q = 4 then 2 else 0

/-- C2 counterexample: for `direction = (0,0,-3)` and `w = (0,0,1)` the
cosine is `-1 ≤ 0` and `CosinePdf::value` returns `1`, while the claimed
density `max(0, cos θ)/π = 0` (whatever the value of `π`); `sqTable` agrees
with the real square root at the one point it is used (`sqrt 9 = 3`). -/
theorem C2_cosine_pdf_counterexample :
    cosine_pdf_value sqTable (355/113) ⟨0, 0, 1⟩ ⟨0, 0, -3⟩ = 1 ∧
    max 0 (dot ((Vec3.mk 0 0 (-3)).normalize sqTable) ⟨0, 0, 1⟩) / (355/113) = 0 ∧
    (1 : ℚ) ≠ 0 := by
  have h : dot ((Vec3.mk 0 0 (-3)).normalize sqTable) ⟨0, 0, 1⟩ = -1 := by
    norm_num [Vec3.normalize, Vec3.divs, length2, dot, sqTable]
  refine ⟨?_, ?_, by norm_num⟩
  · unfold cosine_pdf_value
    rw [h]
    norm_num
  · rw [h]; norm_num

/-- C2 amended: `CosinePdf::value(d)` equals `max(0, cos θ)/π` only when
`cos θ > 0`; when `cos θ ≤ 0` it returns `1.0` instead of the claimed `0`. -/
theorem C2_cosine_pdf_value (sq : ℚ → ℚ) (pi : ℚ) (w d : Vec3) :
    cosine_pdf_value sq pi w d =
      if dot (d.normalize sq) w ≤ 0 then 1
      else max 0 (dot (d.normalize sq) w) / pi := by
  unfold cosine_pdf_value
  by_cases h : dot (d.normalize sq) w ≤ 0
  · simp [h]
  · simp only [h, if_false]
    rw [max_eq_right (le_of_lt (lt_of_not_le h))]

/-- The 8 corners of the child's box and the rotated tester point, exactly
as built inside the loop of `Rotate::new` (`src/object.rs` lines 377–397);
`i j k ∈ {0,1}` select the corner and `sinv`/`cosv` are the stored `sin`
and `cos`. -/
def rotateTester (sinv cosv : ℚ) (axis : Axis) (b : Aabb) (i j k : ℚ) : Vec3 :=
  let (p, q, s) := axis.order
  let x := i * b.box_max.x + (1 - i) * b.box_min.x
  let y := j * b.box_max.y + (1 - j) * b.box_min.y
  let z := k * b.box_max.z + (1 - k) * b.box_min.z
  let coords : Vec3 := ⟨x, y, z⟩
  let newp := cosv * coords.idx p + sinv * coords.idx q
  let newq := -sinv * coords.idx p + cosv * coords.idx q
  (((BLACK.setIdx p newp).setIdx q newq).setIdx s (coords.idx s))

/-- The inner `for c in 0..3` update of `Rotate::new`: the source sets
`box_min[c] = box_min[c].min(tester[c])` and — as written —
`box_max[c] = box_max[c].min(tester[c])` (both with `.min`). -/
def rotateCornerUpdate (rect : Aabb) (tester : Vec3) : Aabb :=
  { box_min := ⟨min rect.box_min.x tester.x, min rect.box_min.y tester.y,
               min rect.box_min.z tester.z⟩
    box_max := ⟨min rect.box_max.x tester.x, min rect.box_max.y tester.y,
               min rect.box_max.z tester.z⟩ }

/-- The corner loop order of `Rotate::new`: `i`, `j`, `k` each over `0..2`. -/
def rotateCorners : List (ℚ × ℚ × ℚ) :=
  [(0,0,0), (0,0,1), (0,1,0), (0,1,1), (1,0,0), (1,0,1), (1,1,0), (1,1,1)]

/-- The AABB computed and stored by `Rotate::new` (`src/object.rs` lines
375–399) for a child whose bounding box is `b`, starting from
`Aabb::empty` and folding the corner updates. -/
def rotateNewBBox (sinv cosv : ℚ) (axis : Axis) (b : Aabb) : Aabb :=
  rotateCorners.foldl
    (fun rect ijk => rotateCornerUpdate rect (rotateTester sinv cosv axis b ijk.1 ijk.2.1 ijk.2.2))
    Aabb.empty

/-- Modelled from the spec: the corner update the spec prescribes
(`rect.box_max[c] = max(rect.box_max[c], tester[c])`, spec §9), keeping
the source's `min` for `box_min`. -/
def rotateCornerUpdateSpec (rect : Aabb) (tester : Vec3) : Aabb :=
  { box_min := ⟨min rect.box_min.x tester.x, min rect.box_min.y tester.y,
               min rect.box_min.z tester.z⟩
    box_max := ⟨max rect.box_max.x tester.x, max rect.box_max.y tester.y,
               max rect.box_max.z tester.z⟩ }

/-- Modelled from the spec: the rotated AABB with extrema (min for the
lower corner, max for the upper corner) over the 8 rotated corners. -/
def rotateNewBBoxSpec (sinv cosv : ℚ) (axis : Axis) (b : Aabb) : Aabb :=
  rotateCorners.foldl
    (fun rect ijk =>
      rotateCornerUpdateSpec rect (rotateTester sinv cosv axis b ijk.1 ijk.2.1 ijk.2.2))
    Aabb.empty

/-- C7: failing input.  For a rotation by 0 degrees about `Z`
(`sin = 0`, `cos = 1`, values the real `sin`/`cos` take at `θ = 0`) of a
child with box `[0,1]³`, the code stores `box_max = (f32::MIN, f32::MIN,
f32::MIN)` — the `.min` fold never raises it above its `Aabb::empty` seed —
while the componentwise extrema of the 8 (un)rotated corners have upper
corner `(1,1,1)`.  The lower corner is computed correctly. -/
theorem C7_rotate_bbox_max_is_broken :
    (rotateNewBBox 0 1 Axis.Z ⟨⟨0,0,0⟩, ⟨1,1,1⟩⟩).box_max = ⟨f32MIN, f32MIN, f32MIN⟩ ∧
    (rotateNewBBoxSpec 0 1 Axis.Z ⟨⟨0,0,0⟩, ⟨1,1,1⟩⟩).box_max = ⟨1, 1, 1⟩ ∧
    (rotateNewBBox 0 1 Axis.Z ⟨⟨0,0,0⟩, ⟨1,1,1⟩⟩).box_min = ⟨0, 0, 0⟩ ∧
    (f32MIN : ℚ) ≠ 1 := by
  refine ⟨?_, ?_, ?_, by norm_num [f32MIN]⟩
  · norm_num [rotateNewBBox, rotateCorners, rotateCornerUpdate, rotateTester,
      Axis.order, Vec3.idx, Vec3.setIdx, BLACK, Aabb.empty, f32MIN, f32MAX,
      min_def, max_def]
  · norm_num [rotateNewBBoxSpec, rotateCorners, rotateCornerUpdateSpec,
      rotateTester, Axis.order, Vec3.idx, Vec3.setIdx, BLACK, Aabb.empty,
      f32MIN, f32MAX, min_def, max_def]
  · norm_num [rotateNewBBox, rotateCorners, rotateCornerUpdate, rotateTester,
      Axis.order, Vec3.idx, Vec3.setIdx, BLACK, Aabb.empty, f32MIN, f32MAX,
      min_def, max_def]

/-- Modelled from the spec: `Ray` `{origin: Point3, direction: Vec3, time:
Float}` (spec §3).  The `Ray` used by the core (with a `time` field and a
`transform` method) is not under `src/`; only its callers are. -/
structure Ray where
  origin : Vec3
  direction : Vec3
  time : ℚ
deriving DecidableEq, Repr

/-- `Ray::new`. -/
def Ray.new (origin direction : Vec3) (time : ℚ) : Ray := ⟨origin, direction, time⟩

/-- `Ray::at`: `origin + t * direction`. -/
def Ray.at (r : Ray) (t : ℚ) : Vec3 := r.origin.add (Vec3.smul t r.direction)

/-- A 3×3 matrix given by its three rows. -/
structure Mat3 where
  r0 : Vec3
  r1 : Vec3
  r2 : Vec3
deriving DecidableEq, Repr

/-- Matrix–vector product. -/
def Mat3.mulVec (m : Mat3) (v : Vec3) : Vec3 := ⟨dot m.r0 v, dot m.r1 v, dot m.r2 v⟩

/-- Matrix transpose. -/
def Mat3.transpose (m : Mat3) : Mat3 :=
  ⟨⟨m.r0.x, m.r1.x, m.r2.x⟩, ⟨m.r0.y, m.r1.y, m.r2.y⟩, ⟨m.r0.z, m.r1.z, m.r2.z⟩⟩

/-- Modelled from the spec: the affine `Mat4` transform each primitive
carries together with its inverse (spec §3; the concrete `Mat4` comes from
the external `glam` crate).  Only `transform_point3` (linear part plus
translation), `transform_vector3` (linear part) and
`transpose().transform_vector3` (transpose of the linear part) are used by
the embedded code, so an affine map is represented by its linear part and
translation. -/
structure Affine where
  m : Mat3
  tr : Vec3
deriving DecidableEq, Repr

/-- `Mat4::transform_point3`. -/
def Affine.transform_point3 (a : Affine) (v : Vec3) : Vec3 := (a.m.mulVec v).add a.tr

/-- `Mat4::transform_vector3`. -/
def Affine.transform_vector3 (a : Affine) (v : Vec3) : Vec3 := a.m.mulVec v

/-- `self.transpose().transform_vector3(v)` as used on the stored inverse
transforms: the transpose of the linear part applied to `v`. -/
def Affine.transposeVec (a : Affine) (v : Vec3) : Vec3 := a.m.transpose.mulVec v

/-- `Mat4::IDENTITY`. -/
def Affine.id : Affine := ⟨⟨⟨1,0,0⟩, ⟨0,1,0⟩, ⟨0,0,1⟩⟩, ⟨0,0,0⟩⟩

/-- Modelled from the spec: `Ray::transform` — "hit applies the inverse to
the incoming ray" (spec §3): origin as a point, direction as a vector,
time unchanged. -/
def Ray.transform (r : Ray) (a : Affine) : Ray :=
  ⟨a.transform_point3 r.origin, a.transform_vector3 r.direction, r.time⟩

/-- The geometric fields of `HitRecord` (`src/object.rs` lines 14–22).  The
`material: Arc<dyn Material>` field is dropped here; the integrator
embedding below carries the material of a hit separately (the source's
material methods read only these geometric fields of the record). -/
structure HitData where
  p : Vec3
  normal : Vec3
  t : ℚ
  u : ℚ
  v : ℚ
  front_face : Bool
deriving DecidableEq, Repr

/-- `HitRecord::with_ray` (`src/object.rs` lines 45–69): `front_face =
dot(r.direction, outward_normal) < 0`, and the stored normal is the
outward normal, negated when `front_face` is false. -/
def HitRecord.with_ray (r : Ray) (p outward_normal : Vec3) (t u v : ℚ) : HitData :=
  let front_face : Bool := decide (dot r.direction outward_normal < 0)
  { p := p
    normal := if front_face then outward_normal else outward_normal.neg
    t := t, u := u, v := v, front_face := front_face }

/-- `HitRecord::set_face_normal` (`src/object.rs` lines 71–78), as a
functional update. -/
def HitData.set_face_normal (rec : HitData) (r : Ray) (outward_normal : Vec3) : HitData :=
  let front_face : Bool := decide (dot r.direction outward_normal < 0)
  { rec with
    front_face := front_face
    normal := if front_face then outward_normal else outward_normal.neg }

/-- `Rect` of `src/rect.rs` (material field dropped, as in `HitData`). -/
structure Rect where
  axis : Axis
  p0 : ℚ
  q0 : ℚ
  p1 : ℚ
  q1 : ℚ
  k : ℚ
  transform : Affine
  inv_transform : Affine
deriving DecidableEq, Repr

/-- `Rect::hit` of `src/rect.rs` (lines 54–89).  `sq` embeds the `sqrt`
inside the `normalize` of the transformed outward normal.  (When the
transformed ray's direction component on the constant axis is zero the
source divides by `0.0` in `f32`, producing `±∞` and a miss; the theorems
below never evaluate that path.) -/
def Rect.hit (sq : ℚ → ℚ) (self : Rect) (rIn : Ray) (t_min t_max : ℚ) :
    Option HitData :=
  let r := rIn.transform self.inv_transform
  let pqs := self.axis.order
  let p := pqs.1
  let q := pqs.2.1
  let s := pqs.2.2
  let t := (self.k - r.origin.idx s) / r.direction.idx s
  if t < t_min ∨ t > t_max then none
  else
    let x := r.origin.idx p + t * r.direction.idx p
    let y := r.origin.idx q + t * r.direction.idx q
    if x < self.p0 ∨ x > self.p1 ∨ y < self.q0 ∨ y > self.q1 then none
    else
      let u := (x - self.p0) / (self.p1 - self.p0)
      let v := (y - self.q0) / (self.q1 - self.q0)
      let pt := r.at t
      let outward0 : Vec3 := match self.axis with
        | .X => ⟨1, 0, 0⟩
        | .Y => ⟨0, 1, 0⟩
        | .Z => ⟨0, 0, 1⟩
      let outward_normal := (self.inv_transform.transposeVec outward0).normalize sq
      some (HitRecord.with_ray r (self.transform.transform_point3 pt)
        outward_normal t u v)

/-- `Sphere` of `src/sphere.rs` (material dropped; the `Range<f32>`
`time_range` is its two endpoints). -/
structure Sphere where
  center0 : Vec3
  center1 : Vec3
  radius : ℚ
  transform : Affine
  inv_transform : Affine
  time_start : ℚ
  time_end : ℚ
deriving DecidableEq, Repr

/-- `Sphere::center` (`src/sphere.rs` lines 56–63); `Range::<f32>::is_empty`
is `¬ (start < end)`. -/
def Sphere.center (self : Sphere) (time : ℚ) : Vec3 :=
  if ¬ (self.time_start < self.time_end) then self.center0
  else self.center0.add
    (Vec3.smul ((time - self.time_start) / (self.time_end - self.time_start))
      (self.center1.sub self.center0))

/-- `sphere_uv` of `src/sphere.rs` (lines 73–77), with `acos`/`atan2`/`π`
supplied as parameters `ac`, `at2`, `pi`. -/
def sphere_uv (ac : ℚ → ℚ) (at2 : ℚ → ℚ → ℚ) (pi : ℚ) (p : Vec3) : ℚ × ℚ :=
  let theta := ac (-p.y)
  let phi := at2 (-p.z) p.x + pi
  (phi / (2 * pi), theta / pi)

/-- `Sphere::hit` of `src/sphere.rs` (lines 80–118): quadratic roots, the
smaller root inside the closed window preferred, else the larger, else a
miss; the record is built by `HitRecord::with_ray` on the
inverse-transformed ray. -/
def Sphere.hit (sq ac : ℚ → ℚ) (at2 : ℚ → ℚ → ℚ) (pi : ℚ) (self : Sphere)
    (rIn : Ray) (t_min t_max : ℚ) : Option HitData :=
  let r := rIn.transform self.inv_transform
  let oc := r.origin.sub (self.center r.time)
  let a := length2 r.direction
  let half_b := dot oc r.direction
  let c := length2 oc - self.radius * self.radius
  let discriminant := half_b * half_b - a * c
  if discriminant < 0 then none
  else
    let sqrtd := sq discriminant
    let mkrec : ℚ → HitData := fun root =>
      let p := r.at root
      let outward_normal :=
        (self.inv_transform.transposeVec
          ((p.sub (self.center r.time)).divs self.radius)).normalize sq
      let uv := sphere_uv ac at2 pi outward_normal
      HitRecord.with_ray r (self.transform.transform_point3 p) outward_normal
        root uv.1 uv.2
    let root1 := (-half_b - sqrtd) / a
    if root1 < t_min ∨ t_max < root1 then
      let root2 := (-half_b + sqrtd) / a
      if root2 < t_min ∨ t_max < root2 then none
      else some (mkrec root2)
    else some (mkrec root1)

/-- `Sphere::pdf_value` of `src/sphere.rs` (lines 133–142): probe the
sphere with `hit(Ray::new(o, v, 0.0), 0.001, f32::MAX)`; on a hit return
the reciprocal solid angle, and on a miss return `1.0`. -/
def Sphere.pdf_value (sq ac : ℚ → ℚ) (at2 : ℚ → ℚ → ℚ) (pi : ℚ)
    (self : Sphere) (o v : Vec3) : ℚ :=
  match Sphere.hit sq ac at2 pi self (Ray.new o v 0) (1/1000) f32MAX with
  | some _ =>
    let cos_theta_max :=
      sq (1 - self.radius * self.radius / length2 (self.center0.sub o))
    let solid_angle := 2 * pi * (1 - cos_theta_max)
    1 / solid_angle
  | none => 1

/-- The per-instance data of `Rotate` (`src/object.rs` lines 359–365): the
axis and the stored `sin`/`cos`.  (The generic child `object: T` is passed
to `Rotate.hitWith` as a hit function; the precomputed bbox is the
subject of `rotateNewBBox` above.) -/
structure RotateData where
  axis : Axis
  sinv : ℚ
  cosv : ℚ
deriving DecidableEq, Repr

/-- `Rotate::hit` (`src/object.rs` lines 414–435): rotate the ray into the
child's frame, query the child, rotate the hit point and normal back, then
`set_face_normal` against the ROTATED ray with the mapped-back normal. -/
def Rotate.hitWith (self : RotateData)
    (childHit : Ray → ℚ → ℚ → Option HitData) (r : Ray) (t_min t_max : ℚ) :
    Option HitData :=
  let pqs := self.axis.order
  let p := pqs.1
  let q := pqs.2.1
  let origin := (r.origin.setIdx p
      (self.cosv * r.origin.idx p - self.sinv * r.origin.idx q)).setIdx q
      (self.sinv * r.origin.idx p + self.cosv * r.origin.idx q)
  let direction := (r.direction.setIdx p
      (self.cosv * r.direction.idx p - self.sinv * r.direction.idx q)).setIdx q
      (self.sinv * r.direction.idx p + self.cosv * r.direction.idx q)
  let rotated_r := Ray.new origin direction r.time
  (childHit rotated_r t_min t_max).map (fun rec =>
    let pt := (rec.p.setIdx p
        (self.cosv * rec.p.idx p + self.sinv * rec.p.idx q)).setIdx q
        (-self.sinv * rec.p.idx p + self.cosv * rec.p.idx q)
    let normal := (rec.normal.setIdx p
        (self.cosv * rec.normal.idx p + self.sinv * rec.normal.idx q)).setIdx q
        (-self.sinv * rec.normal.idx p + self.cosv * rec.normal.idx q)
    HitData.set_face_normal { rec with p := pt } rotated_r normal)

/-- `ConstantMedium::hit` (`src/object.rs` lines 468–496).  The generic
boundary `O: Object` is passed as `boundaryHit`; `logxi` is the value of
`rng.gen::<f32>().ln()` for the drawn uniform sample and `sq` the `sqrt`
inside `direction.length()`.  The returned record carries the constant
normal `(1,0,0)` and `front_face = true` (both marked `arbitrary` in the
source). -/
def ConstantMedium.hitWith (boundaryHit : Ray → ℚ → ℚ → Option HitData)
    (neg_inv_density : ℚ) (transform inv_transform : Affine) (sq : ℚ → ℚ)
    (logxi : ℚ) (rIn : Ray) (t_min t_max : ℚ) : Option HitData :=
  let r := rIn.transform inv_transform
  match boundaryHit r f32MIN f32MAX with
  | none => none
  | some rec1 =>
    match boundaryHit r (rec1.t + 1/10000) f32MAX with
    | none => none
    | some rec2 =>
      let t1 := max rec1.t t_min
      let t2 := min rec2.t t_max
      if t1 ≥ t2 then none
      else
        let t1b := max t1 0
        let ray_length := sq (length2 r.direction)
        let distance_inside_boundary := (t2 - t1b) * ray_length
        let hit_distance := neg_inv_density * logxi
        if hit_distance > distance_inside_boundary then none
        else
          let t := t1b + hit_distance / ray_length
          some { p := transform.transform_point3 (r.at t)
                 normal := ⟨1, 0, 0⟩
                 t := t, u := 1, v := 1, front_face := true }

/-- C10: whenever the probe ray `Ray::new(o, v, 0.0)` misses the sphere
over `(0.001, f32::MAX)`, `Sphere::pdf_value(o, v)` returns `1.0`
(not `0`). -/
theorem C10_sphere_pdf_value_miss_returns_one (sq ac : ℚ → ℚ)
    (at2 : ℚ → ℚ → ℚ) (pi : ℚ) (s : Sphere) (o v : Vec3)
    (h : Sphere.hit sq ac at2 pi s (Ray.new o v 0) (1/1000) f32MAX = none) :
    Sphere.pdf_value sq ac at2 pi s o v = 1 := by
  unfold Sphere.pdf_value
  rw [h]

/-- Witness for C10: a unit sphere at `(5,0,0)` is missed by the ray from
the origin along `(0,1,0)` (discriminant `-24 < 0`), and `pdf_value`
returns `1`. -/
theorem C10_sphere_pdf_value_miss_returns_one_witness :
    Sphere.pdf_value sqTable sqTable (fun _ _ => 0) (355/113)
      ⟨⟨5,0,0⟩, ⟨5,0,0⟩, 1, Affine.id, Affine.id, 0, 0⟩ ⟨0,0,0⟩ ⟨0,1,0⟩ = 1 :=
  C10_sphere_pdf_value_miss_returns_one sqTable sqTable (fun _ _ => 0)
    (355/113) ⟨⟨5,0,0⟩, ⟨5,0,0⟩, 1, Affine.id, Affine.id, 0, 0⟩ ⟨0,0,0⟩ ⟨0,1,0⟩
    (by norm_num [Sphere.hit, Sphere.center, Ray.new, Ray.transform,
      Affine.transform_point3, Affine.transform_vector3, Affine.id,
      Mat3.mulVec, Vec3.sub, Vec3.add, Vec3.smul, length2, dot])

/-- Does an optional hit record's normal point along the given ray — i.e.
does it violate the claimed invariant `dot(ray.direction, normal) ≤ 0`? -/
def violatesDotInv (r : Ray) : Option HitData → Bool
  | some h => decide (0 < dot r.direction h.normal)
  | none => false

/-- Unit sphere centred at `(2,0,0)`, the boundary of the constant medium
in the C5 counterexample. -/
def cmBoundarySphere : Sphere := ⟨⟨2,0,0⟩, ⟨2,0,0⟩, 1, Affine.id, Affine.id, 0, 0⟩

/-- Ray from the origin along `+x`. -/
def cmRay : Ray := ⟨⟨0,0,0⟩, ⟨1,0,0⟩, 0⟩

/-- Axis-aligned rect in the plane `y = 1`, bounds `[-2,2]×[-2,2]`,
identity transform: the child of the Rotate counterexample. -/
def rotRect : Rect := ⟨.Y, -2, -2, 2, 2, 1, Affine.id, Affine.id⟩

/-- `Rotate` by 90° about `Z`: stored `sin = 1`, `cos = 0` (the exact
values of the real `sin`/`cos` at `θ = 90°`). -/
def rotData : RotateData := ⟨.Z, 1, 0⟩

/-- Ray from the origin along `(1,1,0)`. -/
def rotRay : Ray := ⟨⟨0,0,0⟩, ⟨1,1,0⟩, 0⟩

/-- Shear with linear rows `(1,0,0),(0,1,0),(3/4,0,1)` — the stored
`inv_transform` of the sheared rect below. -/
def shearA : Affine := ⟨⟨⟨1,0,0⟩, ⟨0,1,0⟩, ⟨3/4,0,1⟩⟩, ⟨0,0,0⟩⟩

/-- The inverse shear (rows `(1,0,0),(0,1,0),(-3/4,0,1)`), the stored
`transform`. -/
def shearAinv : Affine := ⟨⟨⟨1,0,0⟩, ⟨0,1,0⟩, ⟨-3/4,0,1⟩⟩, ⟨0,0,0⟩⟩

/-- A `z = -1/2` rect carrying the non-orthogonal transform
`set_transform(shearAinv)` (so `inv_transform = shearA`). -/
def shearRect : Rect := ⟨.Z, -5, -5, 5, 5, -1/2, shearAinv, shearA⟩

/-- Ray from the origin along `(1,0,-1)`. -/
def shearRay : Ray := ⟨⟨0,0,0⟩, ⟨1,0,-1⟩, 0⟩

/-- C5 counterexample: three concrete hits whose records violate
`dot(ray.direction, normal) ≤ 0`.
(1) A `ConstantMedium` over `cmBoundarySphere` (density `1`, so
`neg_inv_density = -1`; the exponential sample `ξ = e⁻¹` gives
`ln ξ = -1`) hit by `cmRay` returns the arbitrary normal `(1,0,0)` with
`dot = 1 > 0`.
(2) `Rotate(Z, 90°)` of `rotRect` hit by `rotRay` returns normal `(1,0,0)`
with `dot = 1 > 0` (the flip is computed against the rotated ray paired
with the world-space normal).
(3) `shearRect` (a rect with a non-orthogonal `set_transform`) hit by
`shearRay` returns normal `(-3/5,0,-4/5)` with `dot = 1/5 > 0` (the flip
is computed against the inverse-transformed ray).
`sqTable` agrees with the real square root at every point it is evaluated
(`sqrt 1 = 1`, `sqrt (25/16) = 5/4`). -/
theorem C5_hit_normal_counterexample :
    violatesDotInv cmRay
      (ConstantMedium.hitWith
        (Sphere.hit sqTable sqTable (fun _ _ => 0) (355/113) cmBoundarySphere)
        (-1) Affine.id Affine.id sqTable (-1) cmRay (1/1000) f32MAX) = true ∧
    violatesDotInv rotRay
      (Rotate.hitWith rotData (Rect.hit sqTable rotRect) rotRay (1/1000) f32MAX)
      = true ∧
    violatesDotInv shearRay
      (Rect.hit sqTable shearRect shearRay (1/1000) f32MAX) = true := by
  refine ⟨?_, ?_, ?_⟩
  · norm_num [ConstantMedium.hitWith, Sphere.hit, Sphere.center, sphere_uv,
      HitRecord.with_ray, Ray.transform, Ray.at, Ray.new, Affine.id,
      Affine.transform_point3, Affine.transform_vector3, Affine.transposeVec,
      Mat3.mulVec, Mat3.transpose, Vec3.add, Vec3.sub, Vec3.smul, Vec3.divs,
      Vec3.neg, Vec3.normalize, length2, dot, sqTable, cmBoundarySphere,
      cmRay, f32MIN, f32MAX, violatesDotInv]
  · norm_num [Rotate.hitWith, Rect.hit, HitRecord.with_ray,
      HitData.set_face_normal, Ray.transform, Ray.at, Ray.new, Affine.id,
      Affine.transform_point3, Affine.transform_vector3, Affine.transposeVec,
      Mat3.mulVec, Mat3.transpose, Vec3.add, Vec3.sub, Vec3.smul, Vec3.divs,
      Vec3.neg, Vec3.normalize, Vec3.idx, Vec3.setIdx, Axis.order, length2,
      dot, sqTable, rotRect, rotData, rotRay, f32MAX, violatesDotInv]
  · norm_num [Rect.hit, HitRecord.with_ray, Ray.transform, Ray.at, Ray.new,
      Affine.transform_point3, Affine.transform_vector3, Affine.transposeVec,
      Mat3.mulVec, Mat3.transpose, Vec3.add, Vec3.sub, Vec3.smul, Vec3.divs,
      Vec3.neg, Vec3.normalize, Vec3.idx, Vec3.setIdx, Axis.order, length2,
      dot, sqTable, shearRect, shearA, shearAinv, shearRay, f32MAX,
      violatesDotInv]

/-- `dot` against a negated vector. -/
theorem dot_neg_right (v w : Vec3) : dot v w.neg = -dot v w := by
  simp only [dot, Vec3.neg]; ring

/-- The flip guarantee of `HitRecord::with_ray`: the stored normal opposes
the direction of the ray it is given, and equals the outward normal up to
sign. -/
theorem with_ray_flip (r : Ray) (p n : Vec3) (t u v : ℚ) :
    dot r.direction (HitRecord.with_ray r p n t u v).normal ≤ 0 ∧
    ((HitRecord.with_ray r p n t u v).normal = n ∨
     (HitRecord.with_ray r p n t u v).normal = n.neg) := by
  unfold HitRecord.with_ray
  dsimp only
  by_cases hc : dot r.direction n < 0
  · rw [if_pos (decide_eq_true hc)]
    exact ⟨le_of_lt hc, Or.inl rfl⟩
  · rw [if_neg (by simp [hc])]
    rw [dot_neg_right]
    exact ⟨by linarith [not_lt.mp hc], Or.inr rfl⟩

/-- C5 amended: records built by `HitRecord::with_ray` oppose the ray they
are built against and keep the outward normal up to sign (so they are unit
whenever the outward normal is); consequently every record returned by
`Rect::hit` or `Sphere::hit` satisfies `dot(r'.direction, normal) ≤ 0`
where `r'` is the inverse-transformed ray those functions intersect.
(`ConstantMedium` and `Rotate` do not satisfy the invariant against the
incoming ray — see the counterexample.) -/
theorem C5_with_ray_flip_invariant :
    (∀ (r : Ray) (p n : Vec3) (t u v : ℚ),
      dot r.direction (HitRecord.with_ray r p n t u v).normal ≤ 0 ∧
      ((HitRecord.with_ray r p n t u v).normal = n ∨
       (HitRecord.with_ray r p n t u v).normal = n.neg)) ∧
    (∀ (sq : ℚ → ℚ) (rect : Rect) (r : Ray) (a b : ℚ) (h : HitData),
      Rect.hit sq rect r a b = some h →
      dot (r.transform rect.inv_transform).direction h.normal ≤ 0) ∧
    (∀ (sq ac : ℚ → ℚ) (at2 : ℚ → ℚ → ℚ) (pi : ℚ) (s : Sphere) (r : Ray)
      (a b : ℚ) (h : HitData),
      Sphere.hit sq ac at2 pi s r a b = some h →
      dot (r.transform s.inv_transform).direction h.normal ≤ 0) := by
  refine ⟨with_ray_flip, ?_, ?_⟩
  · intro sq rect r a b h hh
    simp only [Rect.hit] at hh
    split at hh
    · exact absurd hh (by simp)
    · split at hh
      · exact absurd hh (by simp)
      · injection hh with hh
        subst hh
        exact (with_ray_flip _ _ _ _ _ _).1
  · intro sq ac at2 pi s r a b h hh
    simp only [Sphere.hit] at hh
    split at hh
    · exact absurd hh (by simp)
    · split at hh
      · split at hh
        · exact absurd hh (by simp)
        · injection hh with hh
          subst hh
          exact (with_ray_flip _ _ _ _ _ _).1
      · injection hh with hh
        subst hh
        exact (with_ray_flip _ _ _ _ _ _).1

/-- Witness for C5: the flip guarantee evaluated on three concrete
records — a `with_ray` record, the record of a concrete `Rect::hit`, and
the record of a concrete `Sphere::hit`. -/
theorem C5_with_ray_flip_invariant_witness :
    dot cmRay.direction
      (HitRecord.with_ray cmRay ⟨1,0,0⟩ ⟨0,0,1⟩ 1 0 0).normal ≤ 0 ∧
    dot ((Ray.mk ⟨0,0,0⟩ ⟨0,0,1⟩ 0).transform
        (Rect.mk .Z (-5) (-5) 5 5 1 Affine.id Affine.id).inv_transform).direction
      (HitData.mk ⟨0,0,1⟩ ⟨0,0,-1⟩ 1 (1/2) (1/2) false).normal ≤ 0 ∧
    dot (cmRay.transform cmBoundarySphere.inv_transform).direction
      (HitData.mk ⟨1,0,0⟩ ⟨-1,0,0⟩ 1 (1/2) 0 true).normal ≤ 0 :=
  ⟨(C5_with_ray_flip_invariant.1 cmRay ⟨1,0,0⟩ ⟨0,0,1⟩ 1 0 0).1,
   C5_with_ray_flip_invariant.2.1 sqTable
     (Rect.mk .Z (-5) (-5) 5 5 1 Affine.id Affine.id)
     (Ray.mk ⟨0,0,0⟩ ⟨0,0,1⟩ 0) (1/1000) f32MAX
     (HitData.mk ⟨0,0,1⟩ ⟨0,0,-1⟩ 1 (1/2) (1/2) false)
     (by norm_num [Rect.hit, HitRecord.with_ray, Ray.transform, Ray.at,
       Affine.transform_point3, Affine.transform_vector3, Affine.transposeVec,
       Mat3.mulVec, Mat3.transpose, Affine.id, Vec3.add, Vec3.sub, Vec3.smul,
       Vec3.divs, Vec3.neg, Vec3.normalize, Vec3.idx, Vec3.setIdx, Axis.order,
       length2, dot, sqTable, f32MAX]),
   C5_with_ray_flip_invariant.2.2 sqTable sqTable (fun _ _ => 0) (355/113)
     cmBoundarySphere cmRay (1/1000) f32MAX
     (HitData.mk ⟨1,0,0⟩ ⟨-1,0,0⟩ 1 (1/2) 0 true)
     (by norm_num [Sphere.hit, Sphere.center, sphere_uv, HitRecord.with_ray,
       Ray.transform, Ray.at, Affine.transform_point3, Affine.transform_vector3,
       Affine.transposeVec, Mat3.mulVec, Mat3.transpose, Affine.id, Vec3.add,
       Vec3.sub, Vec3.smul, Vec3.divs, Vec3.neg, Vec3.normalize, length2, dot,
       sqTable, cmBoundarySphere, cmRay, f32MAX])⟩

/-- `ZERO` of `src/geom.rs`. -/
def ZERO : Vec3 := ⟨0, 0, 0⟩

/-- The `Pdf` trait of `src/pdf.rs` over an abstract rng-state type `σ`:
the source's `&mut SmallRng` becomes explicit state passing in
`generate`. -/
structure Pdf (σ : Type) where
  value : Vec3 → ℚ
  generate : σ → Vec3 × σ

/-- Modelled from the spec: `Reflection ∈ {Specular(Ray), Scatter(PDF)}`
(spec §4.5).  The enum is matched on by `src/render.rs` but its definition
is not under `src/`. -/
inductive Reflection (σ : Type) where
  | Scatter (pdf : Pdf σ)
  | Specular (ray : Ray)

/-- Modelled from the spec: `Scatter = {attenuation: Color, reflection:
Reflection}` (spec §4.5), the record returned by `Material::scatter` and
read by `src/render.rs` as `scatter_rec.attenuation` /
`scatter_rec.reflection`. -/
structure ScatterRecord (σ : Type) where
  attenuation : Vec3
  reflection : Reflection σ

/-- Modelled from the spec: the `Material` contract (spec §4.5) as invoked
by `src/render.rs` — `scatter(ray, hit)`, `scattering_pdf(ray, hit,
scattered)`, `color_emitted(hit, u, v, p)`.  Materials read only the
geometric fields of the record, so they receive a `HitData`. -/
structure Material (σ : Type) where
  scatter : Ray → HitData → Option (ScatterRecord σ)
  scattering_pdf : Ray → HitData → Ray → ℚ
  color_emitted : HitData → ℚ → ℚ → Vec3 → Vec3

/-- A hit record together with its material — the full `HitRecord` of
`src/object.rs` (geometric fields in `data`, the `material` reference
alongside). -/
structure HitRecordM (σ : Type) where
  data : HitData
  material : Material σ

/-- The `Object` trait operations used by the integrator
(`src/object.rs` lines 81–91): `hit`, `pdf_value`, `random`. -/
structure Object (σ : Type) where
  hit : Ray → ℚ → ℚ → Option (HitRecordM σ)
  pdf_value : Vec3 → Vec3 → ℚ
  random : σ → Vec3 → Vec3 × σ

/-- `EmptyObject` (`src/object.rs` lines 174–194): never hits,
`pdf_value` returns `0.0`, `random` returns `Vec3::ZERO` (and does not
draw from the rng). -/
def EmptyObject (σ : Type) : Object σ :=
  { hit := fun _ _ _ => none
    pdf_value := fun _ _ => 0
    random := fun s _ => (ZERO, s) }

/-- `ObjectPdf` (`src/pdf.rs` lines 43–71): delegates `value` to the
object's `pdf_value` at the stored origin and `generate` to `random`. -/
def ObjectPdf {σ : Type} (object : Object σ) (o : Vec3) : Pdf σ :=
  { value := fun direction => object.pdf_value o direction
    generate := fun s => object.random s o }

/-- `MixturePdf::value` (`src/pdf.rs` line 86):
`0.5 * p0.value + 0.5 * p1.value`. -/
def MixturePdf.value {σ : Type} (p0 p1 : Pdf σ) (direction : Vec3) : ℚ :=
  1/2 * p0.value direction + 1/2 * p1.value direction

/-- `MixturePdf::generate` (`src/pdf.rs` lines 89–96): a fair coin
(`gen_bool(0.5)`, embedded as `genBool`) picks which child generates. -/
def MixturePdf.generate {σ : Type} (genBool : σ → Bool × σ) (p0 p1 : Pdf σ)
    (s : σ) : Vec3 × σ :=
  let rd := genBool s
  if rd.1 then p0.generate rd.2 else p1.generate rd.2

/-- `ray_color` of `src/render.rs` (lines 11–49), the recursive radiance
estimator.  The rng is threaded as explicit state `s`; `genBool` embeds
`rng.gen_bool(0.5)`.  Matching the source: depth 0 returns `BLACK`; a miss
over `(0.001, INFINITY)` returns `background`; an absorbed scatter returns
`emitted`; a `Scatter(pdf1)` reflection mixes `ObjectPdf(lights, hit.p)`
with `pdf1`, samples a direction, and returns
`emitted + attenuation * scattering_pdf * radiance(scattered)/pdf_val`;
a `Specular(ray)` reflection returns `attenuation * radiance(ray)` —
with no emitted term. -/
def ray_color {σ : Type} (genBool : σ → Bool × σ) (world lights : Object σ)
    (background : Vec3) : ℕ → σ → Ray → Vec3
  | 0, _, _ => BLACK
  | depth + 1, s, r =>
    match world.hit r (1/1000) INFINITY with
    | none => background
    | some rec =>
      let emitted := rec.material.color_emitted rec.data rec.data.u rec.data.v
        rec.data.p
      match rec.material.scatter r rec.data with
      | none => emitted
      | some scatter_rec =>
        match scatter_rec.reflection with
        | Reflection.Scatter pdf1 =>
          let pdf0 := ObjectPdf lights rec.data.p
          let gen := MixturePdf.generate genBool pdf0 pdf1 s
          let scattered := Ray.new rec.data.p gen.1 r.time
          let pdf_val := MixturePdf.value pdf0 pdf1 scattered.direction
          let spdf := rec.material.scattering_pdf r rec.data scattered
          emitted.add
            (((Vec3.smul spdf scatter_rec.attenuation).cmul
              (ray_color genBool world lights background depth gen.2 scattered)).divs
              pdf_val)
        | Reflection.Specular ray2 =>
          scatter_rec.attenuation.cmul
            (ray_color genBool world lights background depth s ray2)

/-- Unfolding: depth 0 returns black. -/
theorem ray_color_zero {σ : Type} (genBool : σ → Bool × σ)
    (world lights : Object σ) (bg : Vec3) (s : σ) (r : Ray) :
    ray_color genBool world lights bg 0 s r = BLACK := rfl

/-- Unfolding: at positive depth a world miss returns the background. -/
theorem ray_color_miss {σ : Type} (genBool : σ → Bool × σ)
    (world lights : Object σ) (bg : Vec3) (depth : ℕ) (s : σ) (r : Ray)
    (h : world.hit r (1/1000) INFINITY = none) :
    ray_color genBool world lights bg (depth + 1) s r = bg := by
  conv_lhs => rw [ray_color]
  rw [h]

/-- Unfolding: the `Specular` branch returns
`attenuation * radiance(ray2, depth-1)` — the emitted term is absent. -/
theorem ray_color_specular {σ : Type} (genBool : σ → Bool × σ)
    (world lights : Object σ) (bg : Vec3) (depth : ℕ) (s : σ) (r : Ray)
    (rec : HitRecordM σ) (srec : ScatterRecord σ) (ray2 : Ray)
    (hhit : world.hit r (1/1000) INFINITY = some rec)
    (hscat : rec.material.scatter r rec.data = some srec)
    (hrefl : srec.reflection = Reflection.Specular ray2) :
    ray_color genBool world lights bg (depth + 1) s r =
      srec.attenuation.cmul (ray_color genBool world lights bg depth s ray2) := by
  conv_lhs => rw [ray_color]
  rw [hhit]
  dsimp only
  rw [hscat]
  dsimp only
  rw [hrefl]

/-- Unfolding: the `Scatter` branch returns
`emitted + (attenuation * scattering_pdf * radiance(scattered))/pdf_val`
with `pdf_val` the mixture density of lights-pdf and material pdf at the
sampled direction. -/
theorem ray_color_scatter {σ : Type} (genBool : σ → Bool × σ)
    (world lights : Object σ) (bg : Vec3) (depth : ℕ) (s : σ) (r : Ray)
    (rec : HitRecordM σ) (srec : ScatterRecord σ) (pdf1 : Pdf σ)
    (hhit : world.hit r (1/1000) INFINITY = some rec)
    (hscat : rec.material.scatter r rec.data = some srec)
    (hrefl : srec.reflection = Reflection.Scatter pdf1) :
    ray_color genBool world lights bg (depth + 1) s r =
      (rec.material.color_emitted rec.data rec.data.u rec.data.v rec.data.p).add
        (((Vec3.smul
            (rec.material.scattering_pdf r rec.data
              (Ray.new rec.data.p
                (MixturePdf.generate genBool (ObjectPdf lights rec.data.p) pdf1 s).1
                r.time))
            srec.attenuation).cmul
          (ray_color genBool world lights bg depth
            (MixturePdf.generate genBool (ObjectPdf lights rec.data.p) pdf1 s).2
            (Ray.new rec.data.p
              (MixturePdf.generate genBool (ObjectPdf lights rec.data.p) pdf1 s).1
              r.time))).divs
          (MixturePdf.value (ObjectPdf lights rec.data.p) pdf1
            (Ray.new rec.data.p
              (MixturePdf.generate genBool (ObjectPdf lights rec.data.p) pdf1 s).1
              r.time).direction)) := by
  conv_lhs => rw [ray_color]
  rw [hhit]
  dsimp only
  rw [hscat]
  dsimp only
  rw [hrefl]

/-- C4: the integrator returns black when `depth == 0`, and at positive
depth a world miss over `(0.001, INFINITY)` returns the background
unchanged. -/
theorem C4_depth_zero_black_miss_background {σ : Type}
    (genBool : σ → Bool × σ) (world lights : Object σ) (bg : Vec3) (s : σ)
    (r : Ray) (depth : ℕ)
    (h : world.hit r (1/1000) INFINITY = none) :
    ray_color genBool world lights bg 0 s r = BLACK ∧
    ray_color genBool world lights bg (depth + 1) s r = bg :=
  ⟨ray_color_zero genBool world lights bg s r,
   ray_color_miss genBool world lights bg depth s r h⟩

/-- Witness for C4 on the empty world, which misses every ray. -/
theorem C4_depth_zero_black_miss_background_witness :
    ray_color (fun s : Unit => (true, s)) (EmptyObject Unit) (EmptyObject Unit)
      ⟨1, 2, 3⟩ 0 () ⟨⟨0,0,0⟩, ⟨1,0,0⟩, 0⟩ = BLACK ∧
    ray_color (fun s : Unit => (true, s)) (EmptyObject Unit) (EmptyObject Unit)
      ⟨1, 2, 3⟩ (4 + 1) () ⟨⟨0,0,0⟩, ⟨1,0,0⟩, 0⟩ = ⟨1, 2, 3⟩ :=
  C4_depth_zero_black_miss_background (fun s : Unit => (true, s))
    (EmptyObject Unit) (EmptyObject Unit) ⟨1, 2, 3⟩ () ⟨⟨0,0,0⟩, ⟨1,0,0⟩, 0⟩ 4
    rfl

/-- The probe ray of the C1 counterexample. -/
def specRay0 : Ray := ⟨⟨0,0,0⟩, ⟨1,0,0⟩, 0⟩

/-- The specular bounce ray returned by the material of the C1
counterexample. -/
def specRay2 : Ray := ⟨⟨0,0,0⟩, ⟨0,1,0⟩, 0⟩

/-- A material that always reflects specularly along `specRay2` with
attenuation `(1,1,1)` and emits `(5,5,5)`. -/
def specMat : Material Unit :=
  { scatter := fun _ _ => some ⟨⟨1,1,1⟩, Reflection.Specular specRay2⟩
    scattering_pdf := fun _ _ _ => 0
    color_emitted := fun _ _ _ _ => ⟨5,5,5⟩ }

/-- The hit record the C1 world returns for `specRay0`. -/
def specRec : HitRecordM Unit := ⟨⟨⟨0,0,0⟩, ⟨0,0,1⟩, 1, 0, 0, true⟩, specMat⟩

/-- A world hitting only `specRay0` (with `specRec`). -/
def specWorld : Object Unit :=
  { hit := fun r _ _ => if r = specRay0 then some specRec else none
    pdf_value := fun _ _ => 0
    random := fun s _ => (ZERO, s) }

/-- C1 counterexample: with emitted light `(5,5,5)`, attenuation `(1,1,1)`
and background `(1/4,1/4,1/4)`, the integrator returns `(1/4,1/4,1/4)` on
the specular path (the bounce ray misses, so its radiance is the
background), while the claimed value `emitted + attenuation *
radiance(new_ray, depth-1)` is `(21/4,21/4,21/4)`: the emitted term is NOT
included by the specular branch. -/
theorem C1_specular_emitted_counterexample :
    ray_color (fun s : Unit => (true, s)) specWorld (EmptyObject Unit)
      ⟨1/4, 1/4, 1/4⟩ (1 + 1) () specRay0 = ⟨1/4, 1/4, 1/4⟩ ∧
    (Vec3.mk 5 5 5).add ((Vec3.mk 1 1 1).cmul
      (ray_color (fun s : Unit => (true, s)) specWorld (EmptyObject Unit)
        ⟨1/4, 1/4, 1/4⟩ 1 () specRay2)) = ⟨21/4, 21/4, 21/4⟩ ∧
    (Vec3.mk (1/4) (1/4) (1/4)) ≠ ⟨21/4, 21/4, 21/4⟩ := by
  have hmiss : specWorld.hit specRay2 (1/1000) INFINITY = none := by
    norm_num [specWorld, specRay0, specRay2, Ray.mk.injEq, Vec3.mk.injEq]
  have h1 : ray_color (fun s : Unit => (true, s)) specWorld (EmptyObject Unit)
      ⟨1/4, 1/4, 1/4⟩ 1 () specRay2 = ⟨1/4, 1/4, 1/4⟩ :=
    ray_color_miss _ _ _ _ 0 _ _ hmiss
  have hhit : specWorld.hit specRay0 (1/1000) INFINITY = some specRec := by
    simp [specWorld]
  have h2 := ray_color_specular (fun s : Unit => (true, s)) specWorld
    (EmptyObject Unit) ⟨1/4, 1/4, 1/4⟩ 1 () specRay0 specRec
    ⟨⟨1,1,1⟩, Reflection.Specular specRay2⟩ specRay2 hhit rfl rfl
  refine ⟨?_, ?_, ?_⟩
  · rw [h2, h1]
    norm_num [Vec3.cmul]
  · rw [h1]
    norm_num [Vec3.add, Vec3.cmul, Vec3.mk.injEq]
  · norm_num [Vec3.mk.injEq]

/-- C1 amended: on a specular reflection the integrator returns
`attenuation * radiance(new_ray, ..., depth-1)` with NO emitted term (the
emitted radiance of the hit surface is dropped on this branch). -/
theorem C1_specular_branch_drops_emitted {σ : Type}
    (genBool : σ → Bool × σ) (world lights : Object σ) (bg : Vec3)
    (depth : ℕ) (s : σ) (r : Ray) (rec : HitRecordM σ)
    (srec : ScatterRecord σ) (ray2 : Ray)
    (hhit : world.hit r (1/1000) INFINITY = some rec)
    (hscat : rec.material.scatter r rec.data = some srec)
    (hrefl : srec.reflection = Reflection.Specular ray2) :
    ray_color genBool world lights bg (depth + 1) s r =
      srec.attenuation.cmul (ray_color genBool world lights bg depth s ray2) :=
  ray_color_specular genBool world lights bg depth s r rec srec ray2 hhit
    hscat hrefl

/-- Witness for the amended C1 on the concrete specular world. -/
theorem C1_specular_branch_drops_emitted_witness :
    ray_color (fun s : Unit => (true, s)) specWorld (EmptyObject Unit)
      ⟨1/4, 1/4, 1/4⟩ (1 + 1) () specRay0 =
      (ScatterRecord.attenuation (σ := Unit) ⟨⟨1,1,1⟩, Reflection.Specular specRay2⟩).cmul
        (ray_color (fun s : Unit => (true, s)) specWorld (EmptyObject Unit)
          ⟨1/4, 1/4, 1/4⟩ 1 () specRay2) :=
  C1_specular_branch_drops_emitted (fun s : Unit => (true, s)) specWorld
    (EmptyObject Unit) ⟨1/4, 1/4, 1/4⟩ 1 () specRay0 specRec
    ⟨⟨1,1,1⟩, Reflection.Specular specRay2⟩ specRay2 (by simp [specWorld])
    rfl rfl

/-- The material pdf of the C6 counterexample: density `2` everywhere,
generating `(0,0,1)`. -/
def c6Pdf : Pdf Unit := ⟨fun _ => 2, fun s => (⟨0,0,1⟩, s)⟩

/-- A diffuse-like material scattering with pdf `c6Pdf`, attenuation
`(1,1,1)`, scattering_pdf `1` and no emission. -/
def c6Mat : Material Unit :=
  { scatter := fun _ _ => some ⟨⟨1,1,1⟩, Reflection.Scatter c6Pdf⟩
    scattering_pdf := fun _ _ _ => 1
    color_emitted := fun _ _ _ _ => ⟨0,0,0⟩ }

/-- The hit record of the C6 world. -/
def c6Rec : HitRecordM Unit := ⟨⟨⟨0,0,0⟩, ⟨0,0,1⟩, 1, 0, 0, true⟩, c6Mat⟩

/-- The probe ray of the C6 counterexample. -/
def c6Ray : Ray := ⟨⟨0,0,-1⟩, ⟨0,0,1⟩, 0⟩

/-- A world hitting only `c6Ray` (with `c6Rec`). -/
def c6World : Object Unit :=
  { hit := fun r _ _ => if r = c6Ray then some c6Rec else none
    pdf_value := fun _ _ => 0
    random := fun s _ => (ZERO, s) }

/-- C6 counterexample: with `lights = EmptyObject` and a `Scatter`
material whose own pdf has density `2` at the sampled direction, the
integrator divides by the MIXTURE value `½·0 + ½·2 = 1` and returns
`(1,1,1)` (emitted is zero, attenuation `(1,1,1)`, scattering_pdf `1`,
recursive radiance the background `(1,1,1)`), while the value the claim
prescribes — division by the material pdf alone, density `2` — is
`(1/2,1/2,1/2)`.  The mixture halving is NOT dropped when lights are
empty. -/
theorem C6_empty_lights_counterexample :
    ray_color (fun s : Unit => (false, s)) c6World (EmptyObject Unit)
      ⟨1, 1, 1⟩ (1 + 1) () c6Ray = ⟨1, 1, 1⟩ ∧
    ((Vec3.smul 1 (Vec3.mk 1 1 1)).cmul
      (ray_color (fun s : Unit => (false, s)) c6World (EmptyObject Unit)
        ⟨1, 1, 1⟩ 1 () (Ray.new ⟨0,0,0⟩ ⟨0,0,1⟩ 0))).divs
      (c6Pdf.value ⟨0,0,1⟩) = ⟨1/2, 1/2, 1/2⟩ ∧
    (Vec3.mk 1 1 1) ≠ ⟨1/2, 1/2, 1/2⟩ := by
  have hmiss : c6World.hit (Ray.new ⟨0,0,0⟩ ⟨0,0,1⟩ 0) (1/1000) INFINITY
      = none := by
    norm_num [c6World, c6Ray, Ray.new, Ray.mk.injEq, Vec3.mk.injEq]
  have h1 : ray_color (fun s : Unit => (false, s)) c6World (EmptyObject Unit)
      ⟨1, 1, 1⟩ 1 () (Ray.new ⟨0,0,0⟩ ⟨0,0,1⟩ 0) = ⟨1, 1, 1⟩ :=
    ray_color_miss _ _ _ _ 0 _ _ hmiss
  have hhit : c6World.hit c6Ray (1/1000) INFINITY = some c6Rec := by
    simp [c6World]
  have h2 := ray_color_scatter (fun s : Unit => (false, s)) c6World
    (EmptyObject Unit) ⟨1, 1, 1⟩ 1 () c6Ray c6Rec
    ⟨⟨1,1,1⟩, Reflection.Scatter c6Pdf⟩ c6Pdf hhit rfl rfl
  have hgen : MixturePdf.generate (fun s : Unit => (false, s))
      (ObjectPdf (EmptyObject Unit) c6Rec.data.p) c6Pdf ()
      = (⟨0,0,1⟩, ()) := by
    simp [MixturePdf.generate, ObjectPdf, EmptyObject, c6Pdf]
  refine ⟨?_, ?_, ?_⟩
  · rw [h2, hgen]
    simp only [c6Rec, c6Mat, c6Ray]
    rw [h1]
    norm_num [MixturePdf.value, ObjectPdf, EmptyObject, c6Pdf, Ray.new,
      Vec3.smul, Vec3.cmul, Vec3.divs, Vec3.add, Vec3.mk.injEq]
  · rw [h1]
    norm_num [c6Pdf, Vec3.smul, Vec3.cmul, Vec3.divs, Vec3.mk.injEq]
  · norm_num [Vec3.mk.injEq]

/-- The mixture of the `EmptyObject` tombstone pdf with a material pdf has
value exactly half the material pdf's value (the tombstone contributes
`0.5 · 0`). -/
theorem mixture_value_empty {σ : Type} (pdf1 : Pdf σ) (p d : Vec3) :
    MixturePdf.value (ObjectPdf (EmptyObject σ) p) pdf1 d
      = 1/2 * pdf1.value d := by
  simp [MixturePdf.value, ObjectPdf, EmptyObject]

/-- C6 amended: when the lights aggregate is `EmptyObject` and the
material scatters, the divisor is `½ · material_pdf.value(dir)` — the
tombstone contributes density `0` but the mixture still halves; the
estimate is `emitted + (attenuation * scattering_pdf * radiance)/(½ ·
material_pdf.value(dir))`, not divided by the material pdf alone. -/
theorem C6_empty_lights_divides_by_half_material_pdf {σ : Type}
    (genBool : σ → Bool × σ) (world : Object σ) (bg : Vec3) (depth : ℕ)
    (s : σ) (r : Ray) (rec : HitRecordM σ) (srec : ScatterRecord σ)
    (pdf1 : Pdf σ)
    (hhit : world.hit r (1/1000) INFINITY = some rec)
    (hscat : rec.material.scatter r rec.data = some srec)
    (hrefl : srec.reflection = Reflection.Scatter pdf1) :
    ray_color genBool world (EmptyObject σ) bg (depth + 1) s r =
      (rec.material.color_emitted rec.data rec.data.u rec.data.v rec.data.p).add
        (((Vec3.smul
            (rec.material.scattering_pdf r rec.data
              (Ray.new rec.data.p
                (MixturePdf.generate genBool
                  (ObjectPdf (EmptyObject σ) rec.data.p) pdf1 s).1 r.time))
            srec.attenuation).cmul
          (ray_color genBool world (EmptyObject σ) bg depth
            (MixturePdf.generate genBool
              (ObjectPdf (EmptyObject σ) rec.data.p) pdf1 s).2
            (Ray.new rec.data.p
              (MixturePdf.generate genBool
                (ObjectPdf (EmptyObject σ) rec.data.p) pdf1 s).1 r.time))).divs
          (1/2 * pdf1.value
            (Ray.new rec.data.p
              (MixturePdf.generate genBool
                (ObjectPdf (EmptyObject σ) rec.data.p) pdf1 s).1
              r.time).direction)) := by
  rw [ray_color_scatter genBool world (EmptyObject σ) bg depth s r rec srec
    pdf1 hhit hscat hrefl, mixture_value_empty]

/-- Witness for the amended C6 on the concrete empty-lights world. -/
theorem C6_empty_lights_divides_by_half_material_pdf_witness :
    ray_color (fun s : Unit => (false, s)) c6World (EmptyObject Unit)
      ⟨1, 1, 1⟩ (1 + 1) () c6Ray =
      (c6Rec.material.color_emitted c6Rec.data c6Rec.data.u c6Rec.data.v
        c6Rec.data.p).add
        (((Vec3.smul
            (c6Rec.material.scattering_pdf c6Ray c6Rec.data
              (Ray.new c6Rec.data.p
                (MixturePdf.generate (fun s : Unit => (false, s))
                  (ObjectPdf (EmptyObject Unit) c6Rec.data.p) c6Pdf ()).1
                c6Ray.time))
            (ScatterRecord.attenuation (σ := Unit)
              ⟨⟨1,1,1⟩, Reflection.Scatter c6Pdf⟩)).cmul
          (ray_color (fun s : Unit => (false, s)) c6World (EmptyObject Unit)
            ⟨1, 1, 1⟩ 1
            (MixturePdf.generate (fun s : Unit => (false, s))
              (ObjectPdf (EmptyObject Unit) c6Rec.data.p) c6Pdf ()).2
            (Ray.new c6Rec.data.p
              (MixturePdf.generate (fun s : Unit => (false, s))
                (ObjectPdf (EmptyObject Unit) c6Rec.data.p) c6Pdf ()).1
              c6Ray.time))).divs
          (1/2 * c6Pdf.value
            (Ray.new c6Rec.data.p
              (MixturePdf.generate (fun s : Unit => (false, s))
                (ObjectPdf (EmptyObject Unit) c6Rec.data.p) c6Pdf ()).1
              c6Ray.time).direction)) :=
  C6_empty_lights_divides_by_half_material_pdf (fun s : Unit => (false, s))
    c6World ⟨1, 1, 1⟩ 1 () c6Ray c6Rec ⟨⟨1,1,1⟩, Reflection.Scatter c6Pdf⟩
    c6Pdf (by simp [c6World]) rfl rfl

/-- One axis of `Aabb::hit` (`src/aabb.rs` lines 21–36).  The `let t_min` /
`let t_max` bindings inside the Rust `for` loop are scoped to a single
iteration, so every axis tests against the ORIGINAL `[t_min, t_max]`
window; the test fails on an axis iff the shrunk interval is empty
(`t_max2 ≤ t_min2`).  Over `ℚ` the reciprocal of a zero direction
component is `0` rather than IEEE `±∞`; the theorems below use this
function only through the `Sound` hypothesis, which constrains its value
on the relevant windows. -/
def slabOk (self : Aabb) (r : Ray) (t_min t_max : ℚ) (a : Axis) : Bool :=
  let inv_d := 1 / r.direction.idx a
  let t0 := (self.box_min.idx a - r.origin.idx a) * inv_d
  let t1 := (self.box_max.idx a - r.origin.idx a) * inv_d
  let tt := if inv_d < 0 then (t1, t0) else (t0, t1)
  let t_min2 := if tt.1 > t_min then tt.1 else t_min
  let t_max2 := if tt.2 < t_max then tt.2 else t_max
  decide (¬ (t_max2 ≤ t_min2))

/-- `Aabb::hit`: the three per-axis slab tests, all against the original
window (see `slabOk`). -/
def Aabb.hit (self : Aabb) (r : Ray) (t_min t_max : ℚ) : Bool :=
  slabOk self r t_min t_max .X && slabOk self r t_min t_max .Y &&
    slabOk self r t_min t_max .Z

/-- An abstract primitive for the BVH refinement: for each ray, `cands`
lists the candidate hit parameters and `recAt` builds the hit record at a
parameter.  `Sphere::hit` fits this shape (`cands` = the real quadratic
roots, smaller first — taking the minimal root inside the closed window is
exactly the source's smaller-root-else-larger-root selection), as do
`Rect::hit` (at most one candidate, already filtered by the rect bounds)
and `Cuboid`/`Objects` sweeps.  The closed-window acceptance
`¬(t < t_min ∨ t_max < t)` matches the source tests verbatim. -/
structure Prim where
  cands : Ray → List ℚ
  recAt : Ray → ℚ → HitData

/-- The candidates inside the closed window `[tmin, tmax]`. -/
def window (tmin tmax : ℚ) (l : List ℚ) : List ℚ :=
  l.filter (fun t => decide (tmin ≤ t) && decide (t ≤ tmax))

/-- The minimum of a list of rationals, `none` when empty. -/
def listMin : List ℚ → Option ℚ
  | [] => none
  | t :: ts =>
    match listMin ts with
    | none => some t
    | some m => some (min t m)

/-- A primitive's hit: the record at the minimal candidate inside the
closed window, with the `t` field set to that candidate. -/
def Prim.hit (P : Prim) (r : Ray) (tmin tmax : ℚ) : Option HitData :=
  (listMin (window tmin tmax (P.cands r))).map
    (fun t => { P.recAt r t with t := t })

theorem listMin_eq_none_iff (l : List ℚ) : listMin l = none ↔ l = [] := by
  cases l with
  | nil => simp [listMin]
  | cons t ts =>
    simp only [listMin]
    cases listMin ts <;> simp

theorem listMin_eq_some_iff (l : List ℚ) (m : ℚ) :
    listMin l = some m ↔ m ∈ l ∧ ∀ x ∈ l, m ≤ x := by
  induction l generalizing m with
  | nil => simp [listMin]
  | cons t ts ih =>
    simp only [listMin]
    cases hts : listMin ts with
    | none =>
      rw [listMin_eq_none_iff] at hts
      subst hts
      constructor
      · intro h
        injection h with h
        subst h
        refine ⟨List.mem_cons_self t [], ?_⟩
        intro x hx
        rcases List.mem_cons.mp hx with rfl | hx
        · exact le_refl x
        · exact absurd hx (List.not_mem_nil x)
      · rintro ⟨hm, _⟩
        rcases List.mem_cons.mp hm with rfl | hm
        · rfl
        · exact absurd hm (List.not_mem_nil m)
    | some m2 =>
      have h2 := (ih m2).mp hts
      constructor
      · intro h
        injection h with h
        subst h
        constructor
        · rcases le_total t m2 with hle | hle
          · rw [min_eq_left hle]
            exact List.mem_cons_self t ts
          · rw [min_eq_right hle]
            exact List.mem_cons_of_mem t h2.1
        · intro x hx
          rcases List.mem_cons.mp hx with rfl | hx
          · exact min_le_left _ _
          · exact le_trans (min_le_right _ _) (h2.2 x hx)
      · rintro ⟨hm, hmin⟩
        have hm2 : m ≤ m2 := hmin m2 (List.mem_cons_of_mem t h2.1)
        have hmt : m ≤ t := hmin t (List.mem_cons_self t ts)
        rcases List.mem_cons.mp hm with rfl | hm
        · show some (min m m2) = some m
          rw [min_eq_left hm2]
        · have hge : m2 ≤ m := h2.2 m hm
          have heq : m = m2 := le_antisymm hm2 hge
          subst heq
          show some (min t m) = some m
          rw [min_eq_right hmt]

theorem mem_window (tmin tmax t : ℚ) (l : List ℚ) :
    t ∈ window tmin tmax l ↔ t ∈ l ∧ tmin ≤ t ∧ t ≤ tmax := by
  simp [window, List.mem_filter, and_assoc]

/-- Elimination for a primitive hit: the returned `t` is the minimal
candidate in the closed window, and the record is `recAt` at that `t`. -/
theorem Prim.hit_some_elim (P : Prim) (r : Ray) (a c : ℚ) (h : HitData)
    (hh : P.hit r a c = some h) :
    h.t ∈ P.cands r ∧ a ≤ h.t ∧ h.t ≤ c ∧
    (∀ t ∈ P.cands r, a ≤ t → t ≤ c → h.t ≤ t) ∧
    h = { P.recAt r h.t with t := h.t } := by
  simp only [Prim.hit, Option.map_eq_some'] at hh
  obtain ⟨m, hm, rfl⟩ := hh
  rw [listMin_eq_some_iff] at hm
  obtain ⟨hmem, hmin⟩ := hm
  rw [mem_window] at hmem
  refine ⟨hmem.1, hmem.2.1, hmem.2.2, fun t ht hat htc => ?_, rfl⟩
  exact hmin t ((mem_window a c t _).mpr ⟨ht, hat, htc⟩)

/-- A primitive misses iff no candidate lies in the closed window. -/
theorem Prim.hit_none_iff (P : Prim) (r : Ray) (a c : ℚ) :
    P.hit r a c = none ↔ ∀ t ∈ P.cands r, ¬ (a ≤ t ∧ t ≤ c) := by
  simp only [Prim.hit, Option.map_eq_none', listMin_eq_none_iff]
  constructor
  · intro hw t ht hc
    have : t ∈ window a c (P.cands r) := (mem_window a c t _).mpr ⟨ht, hc.1, hc.2⟩
    rw [hw] at this
    exact absurd this (List.not_mem_nil t)
  · intro hall
    by_contra hne
    obtain ⟨t, ht⟩ := List.exists_mem_of_ne_nil _ hne
    rw [mem_window] at ht
    exact hall t ht.1 ⟨ht.2.1, ht.2.2⟩

/-- Narrowing the window keeps a hit that still fits. -/
theorem Prim.hit_narrow (P : Prim) (r : Ray) (a c c2 : ℚ) (h : HitData)
    (hh : P.hit r a c = some h) (hc2 : h.t ≤ c2) (hcc : c2 ≤ c) :
    P.hit r a c2 = some h := by
  obtain ⟨hmem, hat, htc, hmin, hrec⟩ := P.hit_some_elim r a c h hh
  simp only [Prim.hit]
  have : listMin (window a c2 (P.cands r)) = some h.t := by
    rw [listMin_eq_some_iff]
    refine ⟨(mem_window a c2 h.t _).mpr ⟨hmem, hat, hc2⟩, fun x hx => ?_⟩
    rw [mem_window] at hx
    exact hmin x hx.1 hx.2.1 (le_trans hx.2.2 hcc)
  rw [this]
  simp [hrec.symm]

/-- Widening the window keeps a hit (the minimum cannot drop below it). -/
theorem Prim.hit_widen (P : Prim) (r : Ray) (a c b : ℚ) (h : HitData)
    (hh : P.hit r a c = some h) (hcb : c ≤ b) :
    P.hit r a b = some h := by
  obtain ⟨hmem, hat, htc, hmin, hrec⟩ := P.hit_some_elim r a c h hh
  simp only [Prim.hit]
  have : listMin (window a b (P.cands r)) = some h.t := by
    rw [listMin_eq_some_iff]
    refine ⟨(mem_window a b h.t _).mpr ⟨hmem, hat, le_trans htc hcb⟩,
      fun x hx => ?_⟩
    rw [mem_window] at hx
    by_contra hlt
    push_neg at hlt
    exact absurd (hmin x hx.1 hx.2.1 (le_trans (le_of_lt hlt) htc))
      (not_le.mpr hlt)
  rw [this]
  simp [hrec.symm]

/-- Narrowing a miss stays a miss. -/
theorem Prim.hit_narrow_none (P : Prim) (r : Ray) (a c c2 : ℚ)
    (hh : P.hit r a c = none) (hcc : c2 ≤ c) : P.hit r a c2 = none := by
  rw [Prim.hit_none_iff] at hh ⊢
  intro t ht hc
  exact hh t ht ⟨hc.1, le_trans hc.2 hcc⟩

/-- Narrowing strictly below the minimum turns the hit into a miss. -/
theorem Prim.hit_above (P : Prim) (r : Ray) (a c c2 : ℚ) (h : HitData)
    (hh : P.hit r a c = some h) (hc2 : c2 < h.t) (hcc : c2 ≤ c) :
    P.hit r a c2 = none := by
  obtain ⟨hmem, hat, htc, hmin, hrec⟩ := P.hit_some_elim r a c h hh
  rw [Prim.hit_none_iff]
  intro t ht hc
  have := hmin t ht hc.1 (le_trans hc.2 hcc)
  exact absurd (le_trans this hc.2) (not_le.mpr hc2)

/-- The loop of `Objects::hit` (`src/object.rs` lines 134–144): sweep the
primitives, querying each with `(t_min, closest_so_far)` and updating
`closest_so_far` and the record on every hit. -/
def objectsHitAux (r : Ray) (tmin : ℚ) :
    List Prim → ℚ → Option HitData → Option HitData
  | [], _, acc => acc
  | P :: ps, closest, acc =>
    match P.hit r tmin closest with
    | some new_rec => objectsHitAux r tmin ps new_rec.t (some new_rec)
    | none => objectsHitAux r tmin ps closest acc

/-- `Objects::hit`: the linear sweep with `closest_so_far` initialised to
`t_max` and no record. -/
def objects_hit (ps : List Prim) (r : Ray) (tmin tmax : ℚ) : Option HitData :=
  objectsHitAux r tmin ps tmax none

theorem option_or_none (x : Option HitData) : Option.or x none = x := by
  cases x <;> rfl

theorem option_or_assoc (x y z : Option HitData) :
    Option.or (Option.or x y) z = Option.or x (Option.or y z) := by
  cases x <;> rfl

/-- The accumulator only surfaces when the remaining sweep misses. -/
theorem objectsHitAux_or (r : Ray) (tmin : ℚ) (ps : List Prim) (c : ℚ)
    (acc : Option HitData) :
    objectsHitAux r tmin ps c acc
      = Option.or (objectsHitAux r tmin ps c none) acc := by
  induction ps generalizing c acc with
  | nil => simp [objectsHitAux, Option.or]
  | cons P ps ih =>
    simp only [objectsHitAux]
    cases hP : P.hit r tmin c with
    | some nr =>
      dsimp only
      rw [ih nr.t (some nr), option_or_assoc]
      rfl
    | none =>
      dsimp only
      exact ih c acc

/-- The value `t_hit_left_or_t_max` of the BVH traversal. -/
def tOf (o : Option HitData) (c : ℚ) : ℚ :=
  match o with
  | some h => h.t
  | none => c

/-- Splitting a sweep: sweeping `xs ++ ys` equals sweeping `ys` with the
window tightened by the result of sweeping `xs`, preferring the `ys`
result — exactly the shape of the BVH node traversal. -/
theorem objectsHit_append (r : Ray) (tmin : ℚ) (xs ys : List Prim) (c : ℚ) :
    objectsHitAux r tmin (xs ++ ys) c none
      = Option.or
          (objectsHitAux r tmin ys (tOf (objectsHitAux r tmin xs c none) c) none)
          (objectsHitAux r tmin xs c none) := by
  induction xs generalizing c with
  | nil => simp [objectsHitAux, tOf, option_or_none]
  | cons P xs ih =>
    simp only [List.cons_append, objectsHitAux]
    cases hP : P.hit r tmin c with
    | some nr =>
      dsimp only
      simp only [List.append_eq]
      rw [objectsHitAux_or r tmin (xs ++ ys) nr.t (some nr), ih nr.t,
        objectsHitAux_or r tmin xs nr.t (some nr), option_or_assoc]
      have htof : tOf (Option.or (objectsHitAux r tmin xs nr.t none) (some nr)) c
          = tOf (objectsHitAux r tmin xs nr.t none) nr.t := by
        cases hxs : objectsHitAux r tmin xs nr.t none <;> simp [tOf, Option.or]
      rw [htof]
    | none =>
      dsimp only
      simp only [List.append_eq]
      exact ih c

/-- Window bounds of a sweep result. -/
theorem objectsHitAux_bounds (r : Ray) (tmin : ℚ) (ps : List Prim) :
    ∀ (c : ℚ) (acc : Option HitData) (h : HitData),
    (∀ h2, acc = some h2 → tmin ≤ h2.t ∧ h2.t ≤ c) →
    objectsHitAux r tmin ps c acc = some h → tmin ≤ h.t ∧ h.t ≤ c := by
  induction ps with
  | nil =>
    intro c acc h hacc hrun
    exact hacc h hrun
  | cons P ps ih =>
    intro c acc h hacc hrun
    simp only [objectsHitAux] at hrun
    cases hP : P.hit r tmin c with
    | some nr =>
      rw [hP] at hrun
      obtain ⟨_, hat, htc, _, _⟩ := P.hit_some_elim r tmin c nr hP
      have := ih nr.t (some nr) h
        (by rintro h2 ⟨rfl⟩; exact ⟨hat, le_refl _⟩) hrun
      exact ⟨this.1, le_trans this.2 htc⟩
    | none =>
      rw [hP] at hrun
      exact ih c acc h hacc hrun

/-- A sweep misses exactly when every primitive misses the full window. -/
theorem objectsHit_none_iff (ps : List Prim) (r : Ray) (tmin tmax : ℚ) :
    objects_hit ps r tmin tmax = none ↔ ∀ P ∈ ps, P.hit r tmin tmax = none := by
  unfold objects_hit
  induction ps with
  | nil => simp [objectsHitAux]
  | cons P ps ih =>
    simp only [objectsHitAux]
    cases hP : P.hit r tmin tmax with
    | some nr =>
      dsimp only
      rw [objectsHitAux_or]
      constructor
      · intro h
        cases hz : objectsHitAux r tmin ps nr.t none with
        | some v => rw [hz] at h; cases h
        | none => rw [hz] at h; cases h
      · intro hall
        have hP2 := hall P (List.mem_cons_self P ps)
        rw [hP2] at hP
        cases hP
    | none =>
      dsimp only
      rw [ih]
      simp [List.forall_mem_cons, hP]

/-- The sweep returns a record whose `t` realises the minimum over the
full-window hits of the individual primitives (ties resolved toward later
primitives, which does not affect the `t` value). -/
theorem objectsHit_min (r : Ray) (tmin : ℚ) (ps : List Prim) :
    ∀ (b : ℚ) (h : HitData), objects_hit ps r tmin b = some h →
      (∃ P ∈ ps, ∃ h2, P.hit r tmin b = some h2 ∧ h2.t = h.t) ∧
      (∀ P ∈ ps, ∀ h2, P.hit r tmin b = some h2 → h.t ≤ h2.t) := by
  induction ps with
  | nil =>
    intro b h hrun
    cases hrun
  | cons P ps ih =>
    intro b h hrun
    unfold objects_hit at hrun
    simp only [objectsHitAux] at hrun
    cases hP : P.hit r tmin b with
    | none =>
      rw [hP] at hrun
      dsimp only at hrun
      obtain ⟨⟨Q, hQ, h2, hh2, ht2⟩, hmin⟩ := ih b h hrun
      refine ⟨⟨Q, List.mem_cons_of_mem P hQ, h2, hh2, ht2⟩, ?_⟩
      intro Q2 hQ2 h3 hh3
      rcases List.mem_cons.mp hQ2 with rfl | hQ2
      · rw [hh3] at hP
        cases hP
      · exact hmin Q2 hQ2 h3 hh3
    | some nr =>
      rw [hP] at hrun
      dsimp only at hrun
      rw [objectsHitAux_or] at hrun
      obtain ⟨_, hat, htb, _, _⟩ := P.hit_some_elim r tmin b nr hP
      cases hz : objectsHitAux r tmin ps nr.t none with
      | none =>
        rw [hz] at hrun
        injection hrun with hrun
        subst hrun
        refine ⟨⟨P, List.mem_cons_self P ps, nr, hP, rfl⟩, ?_⟩
        intro Q hQ h2 hh2
        rcases List.mem_cons.mp hQ with rfl | hQ
        · rw [hP] at hh2
          injection hh2 with hh2
          subst hh2
          exact le_refl _
        · by_contra hlt
          push_neg at hlt
          have hnarrow := Prim.hit_narrow Q r tmin b nr.t h2 hh2
            (le_of_lt hlt) htb
          have hall := (objectsHit_none_iff ps r tmin nr.t).mp hz
          rw [hall Q hQ] at hnarrow
          cases hnarrow
      | some v =>
        rw [hz] at hrun
        injection hrun with hrun
        subst hrun
        obtain ⟨⟨Q, hQ, h3, hh3, ht3⟩, hmin⟩ := ih nr.t v hz
        have hvb : tmin ≤ v.t ∧ v.t ≤ nr.t :=
          objectsHitAux_bounds r tmin ps nr.t none v (by intro h2 hn; cases hn)
            hz
        refine ⟨⟨Q, List.mem_cons_of_mem P hQ, h3,
          Prim.hit_widen Q r tmin nr.t b h3 hh3 htb, ht3⟩, ?_⟩
        intro Q2 hQ2 h2 hh2
        rcases List.mem_cons.mp hQ2 with rfl | hQ2
        · rw [hP] at hh2
          injection hh2 with hh2
          subst hh2
          exact hvb.2
        · rcases le_or_lt h2.t nr.t with hle | hgt
          · exact hmin Q2 hQ2 h2 (Prim.hit_narrow Q2 r tmin b nr.t h2 hh2 hle htb)
          · exact le_trans hvb.2 (le_of_lt hgt)

/-- A BVH as traversed by `BvhNode::hit`: internal nodes carry a bounding
box and two children; leaves are primitives (the non-BVH `Geometry`
variants). -/
inductive BvhTree where
  | leaf (P : Prim)
  | node (left right : BvhTree) (bbox : Aabb)

/-- `BvhNode::hit` (`src/bvh.rs` lines 92–104): test the node's bbox; on a
miss return `None`; otherwise query `left` with `(t_min, t_max)`, query
`right` with `(t_min, t_hit_left_or_t_max)`, and return
`right_record.or(left_record)`. -/
def BvhTree.hit : BvhTree → Ray → ℚ → ℚ → Option HitData
  | .leaf P, r, tmin, tmax => P.hit r tmin tmax
  | .node l rt bbox, r, tmin, tmax =>
    if Aabb.hit bbox r tmin tmax = true then
      let left_record := BvhTree.hit l r tmin tmax
      let right_record := BvhTree.hit rt r tmin (tOf left_record tmax)
      Option.or right_record left_record
    else none

/-- The primitives at the leaves, left to right. -/
def BvhTree.leaves : BvhTree → List Prim
  | .leaf P => [P]
  | .node l rt _ => l.leaves ++ rt.leaves

/-- The bbox-soundness invariant of a built BVH for a fixed ray: whenever
some candidate of a primitive below a node lies inside a non-degenerate
closed window, the node's bbox test answers `true` on that window.
`BvhNode::new` establishes this by construction (each node's bbox is the
`surrounding_box` of its children's boxes, which cover their
primitives). -/
def Sound (r : Ray) : BvhTree → Prop
  | .leaf _ => True
  | .node l rt bbox =>
    (∀ (tmin tmax t : ℚ) (P : Prim), P ∈ BvhTree.leaves (.node l rt bbox) →
      t ∈ P.cands r → tmin ≤ t → t ≤ tmax → tmin < tmax →
      Aabb.hit bbox r tmin tmax = true) ∧
    Sound r l ∧ Sound r rt

/-- Window bounds of a BVH traversal result. -/
theorem BvhTree.hit_bounds : ∀ (T : BvhTree) (r : Ray) (a b : ℚ)
    (_hab : a ≤ b) (h : HitData),
    T.hit r a b = some h → a ≤ h.t ∧ h.t ≤ b := by
  intro T
  induction T with
  | leaf P =>
    intro r a b _ h hh
    obtain ⟨_, hat, htb, _, _⟩ := P.hit_some_elim r a b h hh
    exact ⟨hat, htb⟩
  | node l rt bbox ihl ihr =>
    intro r a b hab h hh
    simp only [BvhTree.hit] at hh
    by_cases hB : Aabb.hit bbox r a b = true
    · rw [if_pos hB] at hh
      cases hlr : BvhTree.hit l r a b with
      | none =>
        rw [hlr] at hh
        simp only [tOf] at hh
        cases hrr : BvhTree.hit rt r a b with
        | none =>
          rw [hrr] at hh
          cases hh
        | some v =>
          rw [hrr] at hh
          injection hh with hh
          subst hh
          exact ihr r a b hab v hrr
      | some lh =>
        rw [hlr] at hh
        simp only [tOf] at hh
        have hlb := ihl r a b hab lh hlr
        cases hrr : BvhTree.hit rt r a lh.t with
        | none =>
          rw [hrr] at hh
          injection hh with hh
          subst hh
          exact hlb
        | some v =>
          rw [hrr] at hh
          injection hh with hh
          subst hh
          have hvb := ihr r a lh.t hlb.1 v hrr
          exact ⟨hvb.1, le_trans hvb.2 hlb.2⟩
    · rw [if_neg hB] at hh
      cases hh

theorem map_t_or (x y x2 y2 : Option HitData)
    (hx : Option.map HitData.t x = Option.map HitData.t x2)
    (hy : Option.map HitData.t y = Option.map HitData.t y2) :
    Option.map HitData.t (Option.or x y)
      = Option.map HitData.t (Option.or x2 y2) := by
  cases x with
  | none =>
    cases x2 with
    | none => simpa [Option.or] using hy
    | some v => simp at hx
  | some u =>
    cases x2 with
    | none => simp at hx
    | some v => simpa [Option.or] using hx

/-- C3: for every bbox-sound BVH over a primitive set and every
non-degenerate window, the traversal result carries the same hit parameter
as the linear sweep over the leaves — the traversal queries left with
`(t_min, t_max)`, right with the window tightened to any left-hit `t`
(see `BvhTree.hit`), and returns the nearer of the two; the BVH misses
exactly when every leaf misses, and on a hit its `t` is the minimum over
all per-leaf hits of the full window. -/
theorem C3_bvh_matches_linear_sweep (r : Ray) (T : BvhTree) (a b : ℚ)
    (hS : Sound r T) (hab : a < b) :
    Option.map HitData.t (T.hit r a b)
      = Option.map HitData.t (objects_hit T.leaves r a b) ∧
    (T.hit r a b = none ↔ ∀ P ∈ T.leaves, P.hit r a b = none) ∧
    (∀ h, T.hit r a b = some h →
      (∃ P ∈ T.leaves, ∃ h2, P.hit r a b = some h2 ∧ h2.t = h.t) ∧
      (∀ P ∈ T.leaves, ∀ h2, P.hit r a b = some h2 → h.t ≤ h2.t)) := by
  have main : ∀ (T2 : BvhTree), Sound r T2 → ∀ (a2 b2 : ℚ), a2 < b2 →
      Option.map HitData.t (T2.hit r a2 b2)
        = Option.map HitData.t (objects_hit T2.leaves r a2 b2) := by
    intro T2
    induction T2 with
    | leaf P =>
      intro _ a2 b2 hab2
      simp only [BvhTree.hit, BvhTree.leaves, objects_hit, objectsHitAux]
      cases hP : P.hit r a2 b2 <;> rfl
    | node l rt bbox ihl ihr =>
      intro hS2 a2 b2 hab2
      obtain ⟨hbox, hSl, hSr⟩ := hS2
      by_cases hB : Aabb.hit bbox r a2 b2 = true
      · have hunf : BvhTree.hit (BvhTree.node l rt bbox) r a2 b2
            = Option.or (BvhTree.hit rt r a2 (tOf (BvhTree.hit l r a2 b2) b2))
                (BvhTree.hit l r a2 b2) := by
          simp only [BvhTree.hit, if_pos hB]
        have hsw : objects_hit (BvhTree.leaves (BvhTree.node l rt bbox)) r a2 b2
            = Option.or
                (objects_hit rt.leaves r a2
                  (tOf (objects_hit l.leaves r a2 b2) b2))
                (objects_hit l.leaves r a2 b2) := by
          simp only [BvhTree.leaves, objects_hit]
          exact objectsHit_append r a2 l.leaves rt.leaves b2
        rw [hunf, hsw]
        have hL := ihl hSl a2 b2 hab2
        cases hlx : BvhTree.hit l r a2 b2 with
        | none =>
          have hls : objects_hit l.leaves r a2 b2 = none := by
            rw [hlx] at hL
            cases hls2 : objects_hit l.leaves r a2 b2 with
            | none => rfl
            | some v =>
              rw [hls2] at hL
              cases hL
          rw [hls]
          simp only [tOf]
          exact map_t_or _ _ _ _ (ihr hSr a2 b2 hab2) rfl
        | some lh =>
          have hlsome : ∃ v, objects_hit l.leaves r a2 b2 = some v ∧
              v.t = lh.t := by
            rw [hlx] at hL
            cases hls2 : objects_hit l.leaves r a2 b2 with
            | none =>
              rw [hls2] at hL
              cases hL
            | some v =>
              rw [hls2] at hL
              injection hL with hL
              exact ⟨v, rfl, hL.symm⟩
          obtain ⟨v, hv, hvt⟩ := hlsome
          rw [hv]
          simp only [tOf, hvt]
          have hlb := BvhTree.hit_bounds l r a2 b2 (le_of_lt hab2) lh hlx
          rcases lt_or_eq_of_le hlb.1 with hlt | heq
          · refine map_t_or _ _ _ _ (ihr hSr a2 lh.t hlt) ?_
            simp [hvt]
          · have h1 : Option.map HitData.t
                (Option.or (BvhTree.hit rt r a2 lh.t) (some lh)) = some a2 := by
              cases hrr : BvhTree.hit rt r a2 lh.t with
              | none => simp [Option.or, heq]
              | some u =>
                have hub := BvhTree.hit_bounds rt r a2 lh.t
                  (le_of_eq heq) u hrr
                rw [← heq] at hub
                have hu : u.t = a2 := le_antisymm hub.2 hub.1
                simp [Option.or, hu]
            have h2 : Option.map HitData.t
                (Option.or (objects_hit rt.leaves r a2 lh.t) (some v))
                = some a2 := by
              cases hrr : objects_hit rt.leaves r a2 lh.t with
              | none => simp [Option.or, hvt, heq]
              | some u =>
                have hub := objectsHitAux_bounds r a2 rt.leaves lh.t none u
                  (by intro h2 hn; cases hn) hrr
                rw [← heq] at hub
                have hu : u.t = a2 := le_antisymm hub.2 hub.1
                simp [Option.or, hu]
            rw [h1, h2]
      · have hunf : BvhTree.hit (BvhTree.node l rt bbox) r a2 b2 = none := by
          simp only [BvhTree.hit, if_neg hB]
        have hsw : objects_hit (BvhTree.leaves (BvhTree.node l rt bbox)) r a2 b2
            = none := by
          rw [objectsHit_none_iff]
          intro P hP
          cases hsome : P.hit r a2 b2 with
          | none => rfl
          | some h2 =>
            obtain ⟨hmem, hat, htb, _, _⟩ := P.hit_some_elim r a2 b2 h2 hsome
            exact absurd (hbox a2 b2 h2.t P hP hmem hat htb hab2) hB
        rw [hunf, hsw]
  have hmt := main T hS a b hab
  refine ⟨hmt, ⟨?_, ?_⟩, ?_⟩
  · intro hnone
    rw [hnone] at hmt
    have hsw : objects_hit T.leaves r a b = none := by
      cases ho : objects_hit T.leaves r a b with
      | none => rfl
      | some v =>
        rw [ho] at hmt
        cases hmt
    exact (objectsHit_none_iff T.leaves r a b).mp hsw
  · intro hall
    have hsw := (objectsHit_none_iff T.leaves r a b).mpr hall
    rw [hsw] at hmt
    cases ht : T.hit r a b with
    | none => rfl
    | some v =>
      rw [ht] at hmt
      cases hmt
  · intro h hh
    rw [hh] at hmt
    have hvs : ∃ v, objects_hit T.leaves r a b = some v ∧ v.t = h.t := by
      cases ho : objects_hit T.leaves r a b with
      | none =>
        rw [ho] at hmt
        cases hmt
      | some v =>
        rw [ho] at hmt
        injection hmt with hmt
        exact ⟨v, rfl, hmt.symm⟩
    obtain ⟨v, hv, hvt⟩ := hvs
    obtain ⟨hex, hmin⟩ := objectsHit_min r a T.leaves b v hv
    constructor
    · obtain ⟨P, hP, h2, hh2, ht2⟩ := hex
      exact ⟨P, hP, h2, hh2, by rw [ht2, hvt]⟩
    · intro P hP h2 hh2
      rw [← hvt]
      exact hmin P hP h2 hh2

/-- A primitive hitting the witness ray at `t = 2`. -/
def wPrim1 : Prim := ⟨fun _ => [2], fun _ _ => ⟨⟨2,2,2⟩, ⟨0,0,1⟩, 0, 0, 0, true⟩⟩

/-- A primitive hitting the witness ray at `t = 3`. -/
def wPrim2 : Prim := ⟨fun _ => [3], fun _ _ => ⟨⟨3,3,3⟩, ⟨0,0,1⟩, 0, 0, 0, true⟩⟩

/-- A box `[-100,100]³` strictly containing both witness hit points. -/
def wBox : Aabb := ⟨⟨-100,-100,-100⟩, ⟨100,100,100⟩⟩

/-- A two-leaf BVH for the witness. -/
def wTree : BvhTree := .node (.leaf wPrim1) (.leaf wPrim2) wBox

/-- The witness ray, with every direction component nonzero. -/
def wRay : Ray := ⟨⟨0,0,0⟩, ⟨1,1,1⟩, 0⟩

/-- A single slab of `wBox` against `wRay` passes on every window that
contains a candidate of the witness primitives. -/
theorem wSlab (tmin tmax t : ℚ) (ht2 : 2 ≤ t) (ht3 : t ≤ 3)
    (hta : tmin ≤ t) (htb : t ≤ tmax) (hab : tmin < tmax) :
    (if tmin < (-100:ℚ) then (-100:ℚ) else tmin)
      < (if (100:ℚ) < tmax then (100:ℚ) else tmax) := by
  split_ifs with h1 h2 h2 <;> linarith

/-- The witness tree is bbox-sound for the witness ray. -/
theorem wTree_sound : Sound wRay wTree := by
  refine ⟨?_, trivial, trivial⟩
  intro tmin tmax t P hP ht hta htb hab
  have ht23 : t = 2 ∨ t = 3 := by
    simp only [wTree, BvhTree.leaves, List.singleton_append] at hP
    rcases List.mem_cons.mp hP with rfl | hP
    · left
      simpa [wPrim1] using ht
    · rcases List.mem_cons.mp hP with rfl | hP
      · right
        simpa [wPrim2] using ht
      · exact absurd hP (List.not_mem_nil P)
  have ht2 : 2 ≤ t := by rcases ht23 with rfl | rfl <;> norm_num
  have ht3 : t ≤ 3 := by rcases ht23 with rfl | rfl <;> norm_num
  have hkey := wSlab tmin tmax t ht2 ht3 hta htb hab
  simp only [Aabb.hit, slabOk, wBox, wRay, Vec3.idx]
  norm_num
  exact hkey

/-- Witness for C3 on the concrete two-leaf tree over the window
`(0, 10)`. -/
theorem C3_bvh_matches_linear_sweep_witness :
    Option.map HitData.t (wTree.hit wRay 0 10)
      = Option.map HitData.t (objects_hit wTree.leaves wRay 0 10) ∧
    (wTree.hit wRay 0 10 = none ↔ ∀ P ∈ wTree.leaves, P.hit wRay 0 10 = none) ∧
    (∀ h, wTree.hit wRay 0 10 = some h →
      (∃ P ∈ wTree.leaves, ∃ h2, P.hit wRay 0 10 = some h2 ∧ h2.t = h.t) ∧
      (∀ P ∈ wTree.leaves, ∀ h2, P.hit wRay 0 10 = some h2 → h.t ≤ h2.t)) :=
  C3_bvh_matches_linear_sweep wRay wTree 0 10 wTree_sound (by norm_num)
